import Mathlib

/-!
Verification of the api-aggregator content-acquisition core.

The Python sources under `src/api_aggregator` are shallowly embedded as pure
Lean functions.  Machine-level details are modelled as follows:

* bytes are `Nat` values `< 256` and byte strings are `List Nat`;
* SHA-256 (`hashlib.sha256(...).hexdigest()`) is implemented in full over
  byte lists, with 32-bit words as `Nat` reduced `% 2 ^ 32`;
* filesystem state is explicit: a text dataset is the parsed item list of its
  backing JSON file together with the file's `(mtime_ns, size)` signature and
  the side index; a binary dataset is the file list of its directory together
  with the side index;
* environmental inputs (the fresh `(mtime_ns, size)` signature a write leaves
  behind, the random index `random.choice` draws) are passed as explicit
  arguments;
* code that raises is embedded in `Except String`; code that catches is a
  total function on the result.
-/

namespace ApiAggregator

/-! ## SHA-256 over byte lists -/

/-- 2^32, the modulus of the 32-bit word arithmetic of SHA-256. -/
def M32 : Nat := 4294967296

/-- 32-bit addition. -/
def add32 (a b : Nat) : Nat := (a + b) % M32

/-- 32-bit right rotation of a word `x < 2^32`. -/
def rotr (n x : Nat) : Nat := ((x >>> n) ||| (x <<< (32 - n))) % M32

/-- SHA-256 small sigma 0. -/
def ssig0 (x : Nat) : Nat := ((rotr 7 x) ^^^ (rotr 18 x)) ^^^ (x >>> 3)

/-- SHA-256 small sigma 1. -/
def ssig1 (x : Nat) : Nat := ((rotr 17 x) ^^^ (rotr 19 x)) ^^^ (x >>> 10)

/-- SHA-256 big sigma 0. -/
def bsig0 (x : Nat) : Nat := ((rotr 2 x) ^^^ (rotr 13 x)) ^^^ (rotr 22 x)

/-- SHA-256 big sigma 1. -/
def bsig1 (x : Nat) : Nat := ((rotr 6 x) ^^^ (rotr 11 x)) ^^^ (rotr 25 x)

/-- SHA-256 choice function; complement as xor with the all-ones word. -/
def chf (x y z : Nat) : Nat := (x &&& y) ^^^ ((x ^^^ (M32 - 1)) &&& z)

/-- SHA-256 majority function. -/
def majf (x y z : Nat) : Nat := ((x &&& y) ^^^ (x &&& z)) ^^^ (y &&& z)

/-- The 64 SHA-256 round constants. -/
def kconst : List Nat :=
  [1116352408, 1899447441, 3049323471, 3921009573, 961987163,
   1508970993, 2453635748, 2870763221, 3624381080, 310598401,
   607225278, 1426881987, 1925078388, 2162078206, 2614888103,
   3248222580, 3835390401, 4022224774, 264347078, 604807628,
   770255983, 1249150122, 1555081692, 1996064986, 2554220882,
   2821834349, 2952996808, 3210313671, 3336571891, 3584528711,
   113926993, 338241895, 666307205, 773529912, 1294757372,
   1396182291, 1695183700, 1986661051, 2177026350, 2456956037,
   2730485921, 2820302411, 3259730800, 3345764771, 3516065817,
   3600352804, 4094571909, 275423344, 430227734, 506948616,
   659060556, 883997877, 958139571, 1322822218, 1537002063,
   1747873779, 1955562222, 2024104815, 2227730452, 2361852424,
   2428436474, 2756734187, 3204031479, 3329325298]

/-- The SHA-256 initial hash value. -/
def shaIV : List Nat :=
  [1779033703, 3144134277, 1013904242, 2773480762,
   1359893119, 2600822924, 528734635, 1541459225]

/-- The 8-byte big-endian encoding of the bit length. -/
def lenBytes64 (n : Nat) : List Nat :=
  [(n >>> 56) &&& 255, (n >>> 48) &&& 255, (n >>> 40) &&& 255, (n >>> 32) &&& 255,
   (n >>> 24) &&& 255, (n >>> 16) &&& 255, (n >>> 8) &&& 255, n &&& 255]

/-- SHA-256 padding: append `0x80`, zeros, and the 64-bit message bit length,
reaching a multiple of 64 bytes. -/
def padBytes (msg : List Nat) : List Nat :=
  let padLen := (64 - ((msg.length + 9) % 64)) % 64
  msg ++ 128 :: (List.replicate padLen 0 ++ lenBytes64 (msg.length * 8))

/-- Split a byte list into 64-byte chunks (fuel-driven; the fuel is an upper
bound on the number of chunks). -/
def chunksAux : Nat → List Nat → List (List Nat)
  | 0, _ => []
  | _, [] => []
  | fuel + 1, l => l.take 64 :: chunksAux fuel (l.drop 64)

/-- Split a byte list into 64-byte chunks. -/
def chunks (l : List Nat) : List (List Nat) := chunksAux l.length l

/-- Big-endian 4-byte groups to 32-bit words. -/
def bytesToWords : List Nat → List Nat
  | a :: b :: c :: d :: rest => (((a * 256 + b) * 256 + c) * 256 + d) :: bytesToWords rest
  | _ => []

/-- Extend the 16-word block to the 64-word message schedule. -/
def extendSchedule : Nat → List Nat → List Nat
  | 0, w => w
  | n + 1, w =>
    let len := w.length
    let wi := add32
      (add32 (ssig1 (w.getD (len - 2) 0)) (w.getD (len - 7) 0))
      (add32 (ssig0 (w.getD (len - 15) 0)) (w.getD (len - 16) 0))
    extendSchedule n (w ++ [wi])

/-- The 64-word message schedule of one block. -/
def schedule (block : List Nat) : List Nat := extendSchedule 48 (bytesToWords block)

/-- One SHA-256 compression round on the 8-word working state. -/
def roundFn (st : List Nat) (k w : Nat) : List Nat :=
  match st with
  | [a, b, c, d, e, f, g, h] =>
    let t1 := add32 h (add32 (bsig1 e) (add32 (chf e f g) (add32 k w)))
    let t2 := add32 (bsig0 a) (majf a b c)
    [add32 t1 t2, a, b, c, add32 d t1, e, f, g]
  | _ => st

/-- Compress one 64-byte block into the running 8-word hash state. -/
def compressBlock (h : List Nat) (block : List Nat) : List Nat :=
  let ws := schedule block
  let st := (kconst.zip ws).foldl (fun s kw => roundFn s kw.1 kw.2) h
  (h.zip st).map (fun p => add32 p.1 p.2)

/-- Serialize the 8 final words into the 32 digest bytes, big endian. -/
def wordsToBytes (ws : List Nat) : List Nat :=
  ws.flatMap (fun w => [(w >>> 24) &&& 255, (w >>> 16) &&& 255, (w >>> 8) &&& 255, w &&& 255])

/-- SHA-256 of a byte list, as the 32 digest bytes. -/
def sha256 (msg : List Nat) : List Nat :=
  wordsToBytes ((chunks (padBytes msg)).foldl compressBlock shaIV)

/-- Lower-case hex digit of `n < 16`. -/
def hexDigit (n : Nat) : Char :=
  if n < 10 then Char.ofNat (48 + n) else Char.ofNat (87 + n)

/-- Lower-case hex rendering of a byte list (`hexdigest`). -/
def hexOfBytes (bs : List Nat) : String :=
  String.mk (bs.flatMap (fun b => [hexDigit (b / 16), hexDigit (b % 16)]))

/-- UTF-8 encoding of one code point. -/
def utf8Char (c : Nat) : List Nat :=
  if c < 0x80 then [c]
  else if c < 0x800 then
    [0xC0 ||| (c >>> 6), 0x80 ||| (c &&& 0x3F)]
  else if c < 0x10000 then
    [0xE0 ||| (c >>> 12), 0x80 ||| ((c >>> 6) &&& 0x3F), 0x80 ||| (c &&& 0x3F)]
  else
    [0xF0 ||| (c >>> 18), 0x80 ||| ((c >>> 12) &&& 0x3F),
     0x80 ||| ((c >>> 6) &&& 0x3F), 0x80 ||| (c &&& 0x3F)]

/-- UTF-8 encoding of a string (`str.encode("utf-8")`). -/
def utf8 (s : String) : List Nat :=
  s.toList.flatMap (fun ch => utf8Char ch.toNat)

/-- `LocalDataService._hash_text`: SHA-256 hexdigest of the UTF-8 bytes. -/
def hash_text (s : String) : String := hexOfBytes (sha256 (utf8 s))

/-- `LocalDataService._hash_binary`: SHA-256 hexdigest of the raw bytes. -/
def hash_binary (bs : List Nat) : String := hexOfBytes (sha256 bs)

/-- `str.replace("\r", "\n")` — the line-ending normalization `_save_text`
actually performs.  A single-character pattern makes `replace` a per-character
map: every CR becomes LF (so a CRLF pair becomes two LFs). -/
def norm_cr (s : String) : String :=
  String.mk (s.toList.map (fun c => if c = '\r' then '\n' else c))

/-- Modelled from the spec: the normalization the spec describes, "CRLF
normalized to LF" — each CRLF pair collapses to a single LF. Used only to
compare the spec's wording with the code's `norm_cr`. -/
def spec_norm_crlf_chars : List Char → List Char
  | '\r' :: '\n' :: rest => '\n' :: spec_norm_crlf_chars rest
  | c :: rest => c :: spec_norm_crlf_chars rest
  | [] => []

/-- Modelled from the spec: "SHA-256 over UTF-8 text with CRLF normalized to
LF" — the spec's claimed content-hash of a text payload. -/
def spec_norm_crlf (s : String) : String := String.mk (spec_norm_crlf_chars s.toList)

/-! ## Python string helpers -/

/-- The ASCII whitespace characters `str.strip()` removes. -/
def py_isspace (c : Char) : Bool :=
  c = ' ' || c = '\t' || c = '\n' || c = '\r' || c = Char.ofNat 11 || c = Char.ofNat 12

/-- `str.strip()` (for the ASCII inputs this development manipulates). -/
def pyStrip (s : String) : String :=
  String.mk (((s.toList.dropWhile py_isspace).reverse.dropWhile py_isspace).reverse)

/-- `str.lower()`, per character (all relevant inputs are ASCII). -/
def lowerStr (s : String) : String := String.mk (s.toList.map Char.toLower)

/-- Whether the second list is a leading segment of the first. -/
def charsStartWith : List Char → List Char → Bool
  | _, [] => true
  | [], _ :: _ => false
  | c :: cs, d :: ds => c = d && charsStartWith cs ds

/-- Whether `needle` occurs inside `hay` (first argument is the needle). -/
def charsContain (needle : List Char) : List Char → Bool
  | [] => charsStartWith [] needle
  | c :: cs => charsStartWith (c :: cs) needle || charsContain needle cs

/-- Python's `needle in hay` substring test. -/
def strContains (hay needle : String) : Bool := charsContain needle.toList hay.toList

/-- `str.startswith`. -/
def strStartsWith (s pre : String) : Bool := charsStartWith s.toList pre.toList

/-- `str.endswith`. -/
def strEndsWith (s suf : String) : Bool :=
  charsStartWith s.toList.reverse suf.toList.reverse

/-- `s[:n]` — the first `n` characters. -/
def strTake (s : String) (n : Nat) : String := String.mk (s.toList.take n)

/-- `s[n:]` — the characters from index `n` on. -/
def strDrop (s : String) (n : Nat) : String := String.mk (s.toList.drop n)

/-- Decimal digits of a natural number (fuel-driven). -/
def natToStrAux : Nat → Nat → List Char
  | 0, _ => []
  | fuel + 1, n =>
    if n < 10 then [Char.ofNat (48 + n)]
    else natToStrAux fuel (n / 10) ++ [Char.ofNat (48 + n % 10)]

/-- `str(n)` of a natural number. -/
def natToStr (n : Nat) : String := String.mk (natToStrAux (n + 1) n)

/-- `str(i)` of an integer. -/
def intToStr (i : Int) : String :=
  if i < 0 then "-" ++ natToStr i.natAbs else natToStr i.toNat

/-- Build a Python `set` from a list, keeping first occurrences: membership is
the only observable this development uses. -/
def listSet (l : List String) : List String :=
  l.foldl (fun acc h => if h ∈ acc then acc else acc ++ [h]) []

/-- Insert into a `≤`-sorted string list. -/
def insertSorted (x : String) : List String → List String
  | [] => [x]
  | y :: ys => if x ≤ y then x :: y :: ys else y :: insertSorted x ys

/-- `sorted(...)` on strings. -/
def sortStrings (l : List String) : List String := l.foldr insertSorted []

/-- Insert into a key-sorted association list. -/
def insertPairSorted (x : String × String) :
    List (String × String) → List (String × String)
  | [] => [x]
  | y :: ys => if x.1 ≤ y.1 then x :: y :: ys else y :: insertPairSorted x ys

/-- `sorted(d.items())` by key. -/
def sortPairs (l : List (String × String)) : List (String × String) :=
  l.foldr insertPairSorted []

/-- Python `dict` lookup on an association list with unique keys. -/
def dictGet (d : List (String × String)) (k : String) : Option String :=
  (d.find? (fun p => p.1 == k)).map (fun p => p.2)

/-- Python `d[k] = v`: overwrite in place, or append a new key. -/
def dictSet (d : List (String × String)) (k v : String) : List (String × String) :=
  if d.any (fun p => p.1 == k) then d.map (fun p => if p.1 == k then (k, v) else p)
  else d ++ [(k, v)]

/-- Python `d.pop(k, None)`. -/
def dictRemove (d : List (String × String)) (k : String) : List (String × String) :=
  d.filter (fun p => p.1 ≠ k)

/-- Python `int(s)` on a string: strip, optional sign, decimal digits. -/
def digitsVal : List Char → Option Nat
  | [] => none
  | ds =>
    if ds.all Char.isDigit then
      some (ds.foldl (fun a c => a * 10 + (c.toNat - 48)) 0)
    else none

/-- Python `int(s)` (underscore digit grouping is not needed here: the inputs
have been split at the first underscore already). -/
def parse_py_int (s : String) : Option Int :=
  match (pyStrip s).toList with
  | '+' :: ds => (digitsVal ds).map Int.ofNat
  | '-' :: ds => (digitsVal ds).map (fun n => -(Int.ofNat n))
  | ds => (digitsVal ds).map Int.ofNat

/-- `pathlib.PurePath.stem`: the file name minus its last suffix; a leading
dot or a trailing dot is not a suffix separator. -/
def pathStem (n : String) : String :=
  let cs := n.toList
  match cs.reverse.findIdx? (fun c => c == '.') with
  | none => n
  | some i =>
    let idx := cs.length - 1 - i
    if idx = 0 ∨ idx = cs.length - 1 then n else String.mk (cs.take idx)

/-! ## Content Store: text datasets (`LocalDataService._save_text` etc.)

A text dataset is its backing JSON file — the parsed list of stored lines
plus the `(st_mtime_ns, st_size)` signature `stat()` reports — and the side
index file.  The signatures a write leaves behind are environmental inputs
(`TextEnv`). -/

/-- The parsed payload of a text index file: the hash list and the recorded
signature of the backing data file (missing keys default to `-1`). -/
structure TextIndexData where
  hashes : List String
  source_mtime : Int
  source_size : Int
deriving DecidableEq

/-- The on-disk state of a text index file. -/
inductive IndexState
  | absent
  | corrupt
  | stored (d : TextIndexData)
deriving DecidableEq

/-- The backing JSON file of a text dataset: parsed items and signature. -/
structure TextFileState where
  items : List String
  mtime : Int
  size : Int
deriving DecidableEq

/-- A text dataset: backing file (if it exists) and index file. -/
structure TextDataset where
  file : Option TextFileState
  index : IndexState
deriving DecidableEq

/-- Environmental inputs of one `_save_text` call: the signature left by
creating the empty data file, and by appending the new item. -/
structure TextEnv where
  create_mtime : Int
  create_size : Int
  append_mtime : Int
  append_size : Int

/-- `LocalDataService._load_text_hashes`: reuse the stored hash set when the
recorded signature matches the data file's current one; otherwise rebuild it
from the current items and re-persist it (with the current signature).
Returns the hash set and the resulting index state. -/
def load_text_hashes (idx : IndexState) (items : List String) (cur : Int × Int) :
    List String × IndexState :=
  match idx with
  | .stored d =>
    if d.source_mtime = cur.1 ∧ d.source_size = cur.2 then
      (listSet (d.hashes.filter (fun h => h ≠ "")), idx)
    else
      let rebuilt := listSet (items.map hash_text)
      (rebuilt, .stored ⟨sortStrings rebuilt, cur.1, cur.2⟩)
  | _ =>
    let rebuilt := listSet (items.map hash_text)
    (rebuilt, .stored ⟨sortStrings rebuilt, cur.1, cur.2⟩)

/-- The outcome of `_save_text`: new dataset state and the returned pair
`(saved_text, dedup_hit)`. -/
structure SaveTextResult where
  ds : TextDataset
  saved_text : String
  is_duplicate : Bool
deriving DecidableEq

/-- `LocalDataService._save_text`.  Creates the data file when absent, loads
(or rebuilds) the hash index, normalizes the text with `replace("\r", "\n")`,
and either appends a new item (updating file and index) or reports a
duplicate. -/
def save_text (env : TextEnv) (ds0 : TextDataset) (text : String) : SaveTextResult :=
  let f0 : TextFileState :=
    match ds0.file with
    | none => ⟨[], env.create_mtime, env.create_size⟩
    | some f => f
  let loaded := load_text_hashes ds0.index f0.items (f0.mtime, f0.size)
  let hashes := loaded.1
  let saved := norm_cr text
  let th := hash_text saved
  if th ∈ hashes then
    -- `elif not index_file.exists()`: after `_load_text_hashes` the index file
    -- always exists, so this branch is dead; it is kept for faithfulness.
    let idx2 := if loaded.2 = IndexState.absent then
        IndexState.stored ⟨sortStrings hashes, f0.mtime, f0.size⟩
      else loaded.2
    ⟨⟨some f0, idx2⟩, saved, true⟩
  else
    -- `hashes.add(text_hash)`: `th ∉ hashes` on this branch, so the set add
    -- is an append.
    ⟨⟨some ⟨f0.items ++ [saved], env.append_mtime, env.append_size⟩,
       IndexState.stored ⟨sortStrings (hashes ++ [th]), env.append_mtime, env.append_size⟩⟩,
     saved, false⟩

/-- The hash set `_save_text` consults for its dedup decision on a given
dataset state (after the ensure-file-exists step). -/
def consulted_text_hashes (env : TextEnv) (ds0 : TextDataset) : List String :=
  let f0 : TextFileState :=
    match ds0.file with
    | none => ⟨[], env.create_mtime, env.create_size⟩
    | some f => f
  (load_text_hashes ds0.index f0.items (f0.mtime, f0.size)).1

/-! ## Content Store: binary datasets (`LocalDataService._save_binary`) -/

/-- A binary dataset: the directory (if it exists) as a list of
`(file name, bytes)` pairs, and the raw parsed content of the side index
(`hash → file name`; an absent or corrupt index reads as `[]`).  The index
file itself is kept out of the directory listing. -/
structure BinaryDataset where
  folder : Option (List (String × List Nat))
  index : List (String × String)
deriving DecidableEq

/-- `LocalDataService._load_binary_index`: rebuild the mapping, stripping
keys and values and dropping empty ones. -/
def load_binary_index (raw : List (String × String)) : List (String × String) :=
  raw.foldl (fun acc p =>
    let h := pyStrip p.1
    let f := pyStrip p.2
    if h ≠ "" ∧ f ≠ "" then dictSet acc h f else acc) []

/-- `LocalDataService._is_binary_data_file` over a directory listing: keep
regular files that are not the index and not hidden. -/
def list_binary_files (files : List (String × List Nat)) : List String :=
  (files.map (fun p => p.1)).filter (fun n => n ≠ ".index.json" ∧ ¬ strStartsWith n ".")

/-- `LocalDataService._next_binary_sequence`: one more than the largest
sequence number among files named `{name}_{seq}_{hash8}{ext}`. -/
def next_binary_sequence (files : List String) (name : String) : Int :=
  let pre := name ++ "_"
  (files.foldl (fun m f =>
    let stem := pathStem f
    if charsStartWith stem.toList pre.toList then
      let rest := strDrop stem pre.length
      match parse_py_int ((rest.splitOn "_").headD rest) with
      | some v => if m < v then v else m
      | none => m
    else m) (-1)) + 1

/-- The generated binary file name `{name}_{seq}_{hash8}{ext}`. -/
def mk_bin_name (name : String) (seq : Int) (hash8 ext : String) : String :=
  name ++ "_" ++ intToStr seq ++ "_" ++ hash8 ++ ext

/-- The `while saved_path.exists(): seq += 1` collision loop, fuel-driven;
one more than the number of files on disk always suffices. -/
def find_free_seq (names : List String) (mkn : Int → String) : Nat → Int → Int
  | 0, s => s
  | fuel + 1, s => if mkn s ∈ names then find_free_seq names mkn fuel (s + 1) else s

/-- The outcome of `_save_binary`: new dataset state and the returned pair
`(saved_path, dedup_hit)`; paths are directory-relative file names. -/
structure SaveBinResult where
  ds : BinaryDataset
  saved_path : String
  is_duplicate : Bool
deriving DecidableEq

/-- `LocalDataService._save_binary`: ensure the directory, look the content
hash up in the index (verifying the indexed file still exists), and on a miss
write a fresh sequentially-numbered file and re-persist the index sorted by
key. -/
def save_binary (ds0 : BinaryDataset) (name : String) (bin : List Nat) (ext : String) :
    SaveBinResult :=
  let files0 := ds0.folder.getD []          -- save_dir.mkdir(exist_ok=True)
  let idx0 := load_binary_index ds0.index
  let bhash := hash_binary bin
  let names0 := files0.map (fun p => p.1)
  let step2 : List (String × String) → SaveBinResult := fun idx =>
    let seq0 := next_binary_sequence (list_binary_files files0) name
    let hash8 := strTake bhash 8
    let mkn := fun s => mk_bin_name name s hash8 ext
    let seq := find_free_seq names0 mkn (files0.length + 1) seq0
    let fname := mkn seq
    let files1 := files0.filter (fun p => p.1 ≠ fname) ++ [(fname, bin)]
    ⟨⟨some files1, sortPairs (dictSet idx bhash fname)⟩, fname, false⟩
  match dictGet idx0 bhash with
  | some fname =>
    if fname ∈ names0 then ⟨⟨some files0, ds0.index⟩, fname, true⟩
    else step2 (dictRemove idx0 bhash)
  | none => step2 idx0

/-- An index entry with stripped, non-empty key and value — the shape every
entry of a loaded binary index has. -/
def CleanPair (p : String × String) : Prop :=
  pyStrip p.1 = p.1 ∧ p.1 ≠ "" ∧ pyStrip p.2 = p.2 ∧ p.2 ≠ ""

/-- Whether a `_save_binary` call on this state would be a dedup hit for the
given content hash: an indexed file name that still exists on disk. -/
def binary_dup_hit (ds : BinaryDataset) (h : String) : Bool :=
  match dictGet (load_binary_index ds.index) h with
  | some fname => fname ∈ (ds.folder.getD []).map (fun p => p.1)
  | none => false

/-! ## `model.py`: `DataType` and `DataResource` -/

/-- `DataType`: the four dataset kinds. -/
inductive DataType
  | text
  | image
  | video
  | audio
deriving DecidableEq

/-- `DataType.is_text`. -/
def DataType.is_text : DataType → Bool
  | .text => true
  | _ => false

/-- `DataType.is_binary`: image, video or audio. -/
def DataType.is_binary : DataType → Bool
  | .image => true
  | .video => true
  | .audio => true
  | _ => false

/-- `DataType.get_default_ext`. -/
def DataType.get_default_ext : DataType → String
  | .text => ".json"
  | .image => ".jpg"
  | .video => ".mp4"
  | .audio => ".mp3"

/-- `DataResource`: the value object bridging fetch output and cache write.
Byte payloads are byte lists; `saved_path` is a file name. -/
structure DataResource where
  data_type : DataType
  name : String
  text : Option String := none
  binary : Option (List Nat) := none
  saved_text : Option String := none
  saved_path : Option String := none
  is_duplicate : Bool := false
deriving DecidableEq

/-- `DataResource.validate_for_save`: text type needs truthy text, binary
type needs truthy bytes, and the two inputs are mutually exclusive
(Python truthiness: `None` and empty values are falsy). -/
def validate_for_save (d : DataResource) : Except String Unit :=
  if d.data_type.is_text ∧ d.text.getD "" = "" then
    .error "Text type requires text"
  else if d.data_type.is_binary ∧ d.binary.getD [] = [] then
    .error "Binary type requires binary"
  else if d.text.getD "" ≠ "" ∧ d.binary.getD [] ≠ [] then
    .error "Cannot provide text and binary at the same time"
  else .ok ()

/-- The local store's state for one dataset name: the text dataset under the
text type directory and the binary dataset under the entry's binary type
directory (distinct directories, so they coexist independently). -/
structure LocalState where
  textDs : TextDataset
  binDs : BinaryDataset
deriving DecidableEq

/-- `LocalDataService.save_data` (the per-dataset lock is irrelevant in this
sequential model): validate, then dispatch on the data type; fills the
`saved_*` fields of the resource.  `_save_text` re-validates the resource,
which is a no-op the second time and is omitted. -/
def save_data (env : TextEnv) (st : LocalState) (d : DataResource) :
    Except String (LocalState × DataResource) := do
  let _ ← validate_for_save d
  if d.data_type.is_text then
    let r := save_text env st.textDs (d.text.getD "")   -- str(data.text or "")
    .ok (⟨r.ds, st.binDs⟩,
         { d with saved_text := some r.saved_text, is_duplicate := r.is_duplicate })
  else
    match d.binary with
    | none => .error "binary data is empty"
    | some bin =>
      let r := save_binary st.binDs d.name bin d.data_type.get_default_ext
      .ok (⟨st.textDs, r.ds⟩,
           { d with saved_path := some r.saved_path, is_duplicate := r.is_duplicate })

/-- `LocalDataService._get_text`: the parsed item list of the backing file;
raises when the file is absent or the list is empty.  (The backing file is
always well-formed JSON in this model, as every store write produces it.) -/
def get_text (ds : TextDataset) : Except String (List String) :=
  match ds.file with
  | none => .error "text dataset not found"
  | some f =>
    if f.items = [] then .error "text dataset empty or invalid" else .ok f.items

/-- `LocalDataService._get_binary`: the data files of the dataset directory;
raises when the directory is absent or holds no data files. -/
def get_binary (ds : BinaryDataset) : Except String (List String) :=
  match ds.folder with
  | none => .error "folder not found"
  | some files =>
    let bf := list_binary_files files
    if bf = [] then .error "folder empty" else .ok bf

/-- `LocalDataService.get_random_data`: one random stored item;
`random.choice` is modelled by the environmental index `pick` reduced
modulo the item count. -/
def get_random_data (st : LocalState) (dt : DataType) (name : String) (pick : Nat) :
    Except String DataResource :=
  if dt.is_text then do
    let items ← get_text st.textDs
    .ok { data_type := dt, name := name,
          saved_text := some (items.getD (pick % items.length) "") }
  else if dt.is_binary then do
    let files ← get_binary st.binDs
    .ok { data_type := dt, name := name,
          saved_path := some (files.getD (pick % files.length) "") }
  else .error "unsupported data type"

/-! ## `request_result.py`: `RequestResult` -/

/-- `RequestResult`: the transient per-request value object. -/
structure RequestResult where
  status : Option Int := none
  raw_text : Option String := none
  raw_content : Option (List Nat) := none
  content_type : Option String := none
  error : Option String := none
  final_url : Option String := none
deriving DecidableEq

/-- `RequestResult.ok`: no captured error. -/
def RequestResult.ok (r : RequestResult) : Bool := r.error = none

/-! ## `json.loads` (the fragment `is_valid` needs)

JSON values with integer numbers; the claims' payloads contain no floats, and
a float (or any other unsupported form) makes the parse fail, which
`is_valid` treats as "not JSON". -/

/-- A parsed JSON value (numbers restricted to integers). -/
inductive JVal
  | jnull
  | jbool (b : Bool)
  | jnum (n : Int)
  | jstr (s : String)
  | jarr (l : List JVal)
  | jobj (l : List (String × JVal))

/-- The whitespace `json.loads` skips between tokens. -/
def jsonWs (c : Char) : Bool := c = ' ' || c = '\t' || c = '\n' || c = '\r'

/-- Skip JSON inter-token whitespace. -/
def skipWs (cs : List Char) : List Char := cs.dropWhile jsonWs

/-- Hex digit value, for `\uXXXX` escapes. -/
def hexVal (c : Char) : Option Nat :=
  if c.isDigit then some (c.toNat - 48)
  else if 'a' ≤ c ∧ c ≤ 'f' then some (c.toNat - 87)
  else if 'A' ≤ c ∧ c ≤ 'F' then some (c.toNat - 55)
  else none

/-- Parse a JSON string body (after the opening quote), with the standard
escapes (`\uXXXX` outside surrogate pairs). -/
def parseJStrAux : Nat → List Char → List Char → Option (String × List Char)
  | 0, _, _ => none
  | fuel + 1, acc, cs =>
    match cs with
    | '"' :: rest => some (String.mk acc.reverse, rest)
    | '\\' :: e :: rest =>
      match e with
      | '"' => parseJStrAux fuel ('"' :: acc) rest
      | '\\' => parseJStrAux fuel ('\\' :: acc) rest
      | '/' => parseJStrAux fuel ('/' :: acc) rest
      | 'b' => parseJStrAux fuel (Char.ofNat 8 :: acc) rest
      | 'f' => parseJStrAux fuel (Char.ofNat 12 :: acc) rest
      | 'n' => parseJStrAux fuel ('\n' :: acc) rest
      | 'r' => parseJStrAux fuel ('\r' :: acc) rest
      | 't' => parseJStrAux fuel ('\t' :: acc) rest
      | 'u' =>
        match rest with
        | h1 :: h2 :: h3 :: h4 :: rest2 =>
          match hexVal h1, hexVal h2, hexVal h3, hexVal h4 with
          | some a, some b, some c, some d =>
            parseJStrAux fuel (Char.ofNat (((a * 16 + b) * 16 + c) * 16 + d) :: acc) rest2
          | _, _, _, _ => none
        | _ => none
      | _ => none
    | c :: rest =>
      if c.toNat < 32 then none else parseJStrAux fuel (c :: acc) rest
    | [] => none

/-- Parse a JSON integer (a float offer makes the whole parse fail). -/
def parseJNum (cs : List Char) : Option (Int × List Char) :=
  let core : List Char → Option (Nat × List Char) := fun l =>
    let ds := l.takeWhile Char.isDigit
    let rest := l.dropWhile Char.isDigit
    match ds with
    | [] => none
    | _ =>
      match rest with
      | '.' :: _ => none
      | 'e' :: _ => none
      | 'E' :: _ => none
      | _ => some (ds.foldl (fun a c => a * 10 + (c.toNat - 48)) 0, rest)
  match cs with
  | '-' :: l => (core l).map (fun p => (-(Int.ofNat p.1), p.2))
  | l => (core l).map (fun p => (Int.ofNat p.1, p.2))

/-- The recursive-descent parser's pending job: a value, the members of an
object, or the items of an array. -/
inductive PJob
  | pval (cs : List Char)
  | pmembers (cs : List Char) (acc : List (String × JVal))
  | pitems (cs : List Char) (acc : List JVal)

/-- The recursive-descent JSON parser, fuel-indexed (one function so the
kernel can evaluate it by structural reduction). -/
def parseJ : Nat → PJob → Option (JVal × List Char)
  | 0, _ => none
  | fuel + 1, .pval cs0 =>
    (match skipWs cs0 with
     | '{' :: rest =>
       (match skipWs rest with
        | '}' :: r2 => some (.jobj [], r2)
        | _ => parseJ fuel (.pmembers rest []))
     | '[' :: rest =>
       (match skipWs rest with
        | ']' :: r2 => some (.jarr [], r2)
        | _ => parseJ fuel (.pitems rest []))
     | '"' :: rest => (parseJStrAux (fuel + 1) [] rest).map (fun p => (JVal.jstr p.1, p.2))
     | 't' :: 'r' :: 'u' :: 'e' :: rest => some (.jbool true, rest)
     | 'f' :: 'a' :: 'l' :: 's' :: 'e' :: rest => some (.jbool false, rest)
     | 'n' :: 'u' :: 'l' :: 'l' :: rest => some (.jnull, rest)
     | other => (parseJNum other).map (fun p => (JVal.jnum p.1, p.2)))
  | fuel + 1, .pmembers cs acc =>
    (match skipWs cs with
     | '"' :: rest =>
       (match parseJStrAux (fuel + 1) [] rest with
        | none => none
        | some (k, rest2) =>
          match skipWs rest2 with
          | ':' :: rest3 =>
            (match parseJ fuel (.pval rest3) with
             | none => none
             | some (v, rest4) =>
               match skipWs rest4 with
               | ',' :: rest5 => parseJ fuel (.pmembers rest5 ((k, v) :: acc))
               | '}' :: rest5 => some (.jobj ((k, v) :: acc).reverse, rest5)
               | _ => none)
          | _ => none)
     | _ => none)
  | fuel + 1, .pitems cs acc =>
    (match parseJ fuel (.pval cs) with
     | none => none
     | some (v, rest) =>
       match skipWs rest with
       | ',' :: rest2 => parseJ fuel (.pitems rest2 (v :: acc))
       | ']' :: rest2 => some (.jarr ((v :: acc).reverse), rest2)
       | _ => none)

/-- `json.loads`: parse a complete value, allowing trailing whitespace only.
The fuel bounds the call depth and is generous for every input. -/
def jsonLoads (s : String) : Option JVal :=
  let cs := s.toList
  match parseJ (2 * cs.length + 4) (.pval cs) with
  | some (v, rest) => if skipWs rest = [] then some v else none
  | none => none

/-- Python `dict` semantics of a parsed object: later duplicate keys win. -/
def objGet (l : List (String × JVal)) (k : String) : Option JVal :=
  (l.reverse.find? (fun p => p.1 == k)).map (fun p => p.2)

/-! ## `RequestResult.is_valid` -/

/-- The HTML error phrases `is_valid` rejects. -/
def error_keywords : List String :=
  ["access denied", "forbidden", "unauthorized", "not found", "bad request",
   "service unavailable", "too many requests", "error 403", "error 404", "error 500"]

/-- The substrings that mark a JSON error field. -/
def json_error_terms : List String :=
  ["error", "invalid", "fail", "denied", "unauthorized", "forbidden"]

/-- The `code` field check: a numeric `code` outside `{0, 200}` is invalid
(Python `bool` is an `int`: `True` counts as `1`, `False` as `0`). -/
def jobj_code_invalid (m : List (String × JVal)) : Bool :=
  match objGet m "code" with
  | some (.jnum n) => n != 0 && n != 200
  | some (.jbool b) => b
  | _ => false

/-- The error-field check: a string under `error`/`err`/`message`/`msg`
containing one of the error terms (case-insensitively) is invalid. -/
def jobj_error_fields (m : List (String × JVal)) : Bool :=
  ["error", "err", "message", "msg"].any (fun k =>
    match objGet m k with
    | some (.jstr s) => json_error_terms.any (fun kw => strContains (lowerStr s) kw)
    | _ => false)

/-- `RequestResult.is_valid`: the business-validity classifier. -/
def is_valid (r : RequestResult) : Bool :=
  if ¬ r.ok then false
  else
    match r.status with
    | none => false
    | some v =>
      -- `if not self.status or not (200 <= self.status < 300)`
      if v = 0 ∨ ¬ (200 ≤ v ∧ v < 300) then false
      else if r.raw_content ≠ none then
        -- binary branch: valid iff non-empty
        decide (r.raw_content.getD [] ≠ [])
      else
        match r.raw_text with
        | none => false
        | some t0 =>
          if t0 = "" then false
          else
            let text := pyStrip t0
            if text = "" then false
            else
              let ct := lowerStr (r.content_type.getD "")
              if strContains ct "application/json"
                  || (strStartsWith text "\x7b" && strEndsWith text "\x7d")
                  || (strStartsWith text "[" && strEndsWith text "]") then
                match jsonLoads text with
                | none => true     -- mislabelled plain text: lenient
                | some (.jobj m) =>
                  if jobj_code_invalid m then false
                  else if jobj_error_fields m then false
                  else true
                | some _ => true
              else if strContains ct "text/html" || strContains (lowerStr text) "<html" then
                !(error_keywords.any (fun k => strContains (lowerStr text) k))
              else true

/-! ## `data_service/__init__.py`: `DataService.fetch` -/

/-- The items `DataService.fetch`'s local fallback would sample from, if any:
the text items or the listed binary files of the entry's dataset. -/
def dataset_items (st : LocalState) (dt : DataType) : Option (List String) :=
  if dt.is_text then st.textDs.file.map (fun f => f.items)
  else st.binDs.folder.map list_binary_files

/-- The resource `get_random_data` builds from one sampled item. -/
def mk_sample (dt : DataType) (name : String) (item : String) : DataResource :=
  if dt.is_text then { data_type := dt, name := name, saved_text := some item }
  else { data_type := dt, name := name, saved_path := some item }

/-- `DataService.fetch`: try the remote result; on success persist and return
the saved resource; on any failure fall back (when `use_local`) to a random
local item; return `none` when both paths fail.  Every exception of the
remote path and of the fallback is caught, so the function is total. -/
def DataService.fetch (env : TextEnv) (pick : Nat) (st : LocalState)
    (dt : DataType) (name : String) (result : RequestResult) (use_local : Bool) :
    Option DataResource × LocalState :=
  let attempt : Except String (DataResource × LocalState) :=
    if ¬ result.ok then .error (result.error.getD "request not ok")
    else
      match save_data env st
          { data_type := dt, name := name,
            text := result.raw_text, binary := result.raw_content } with
      | .ok (st2, d2) => .ok (d2, st2)
      | .error e => .error e
  match attempt with
  | .ok (d, st2) => (some d, st2)
  | .error _ =>
    if use_local then
      match get_random_data st dt name pick with
      | .ok d => (some d, st)
      | .error _ => (none, st)
    else (none, st)

/-- Whether a `save_data` call on this state would find the resource's
payload already stored: the text content hash is in the hash set the save
would consult, or the binary content hash indexes an existing file. -/
def payload_present (env : TextEnv) (st : LocalState) (d : DataResource) : Bool :=
  if d.data_type.is_text then
    decide (hash_text (norm_cr (d.text.getD "")) ∈ consulted_text_hashes env st.textDs)
  else binary_dup_hit st.binDs (hash_binary (d.binary.getD []))

/-! ## `entry/api_entry.py`: `APIEntry`

Entries are the normalized records `APIEntry._normalize_data` produces
(`ConfigNode`, absent from the sources, is plain attribute storage).  The
compiled keyword regexes live outside the model: `compiles p` says whether
`re.compile(p)` succeeds and `search p text` whether the compiled pattern
finds a match in `text`; both are passed explicitly. -/

/-- An API entry record (regex compilation kept external). -/
structure APIEntry where
  name : String
  url : String
  type' : String
  params : List (String × String)
  parse : String
  enabled : Bool
  scope : List String
  keywords : List String
  cron : String
  valid : Bool
  site : String
deriving DecidableEq

instance : Inhabited APIEntry :=
  ⟨⟨"", "", "text", [], "", true, [], [], "", true, ""⟩⟩

/-- `APIEntry._allow_scope`: an empty scope admits anyone; otherwise some
scope token must be `"admin"` (with the caller flagged admin) or equal one of
the caller's identifiers. -/
def allow_scope (e : APIEntry) (user_id group_id session_id : String)
    (is_admin : Bool) : Bool :=
  if e.scope = [] then true
  else e.scope.any (fun s =>
    (s == "admin" && is_admin) || s == user_id || s == group_id || s == session_id)

/-- `APIEntry._match_keywords` over `_compile_patterns`: drop blank keywords,
drop those that fail to compile, and search with the rest. -/
def match_keywords (compiles : String → Bool) (search : String → String → Bool)
    (e : APIEntry) (text : String) : Bool :=
  ((e.keywords.filter (fun k => pyStrip k ≠ "")).filter compiles).any
    (fun p => search p text)

/-- `APIEntry.check_activate`: enabled, valid, scope gate, keyword match. -/
def check_activate (compiles : String → Bool) (search : String → String → Bool)
    (e : APIEntry) (text user_id group_id session_id : String) (is_admin : Bool) :
    Bool :=
  if ¬ e.enabled then false
  else if ¬ e.valid then false
  else if ¬ allow_scope e user_id group_id session_id is_admin then false
  else if ¬ match_keywords compiles search e text then false
  else true

/-! ## `entry/api_mgr.py`: `APIEntryManager` -/

/-- The manager's state: the in-memory entries and the mirrored row store
(rows carry the same fields as entries). -/
structure MgrState where
  entries : List APIEntry
  pool : List APIEntry
deriving DecidableEq

/-- `APIEntryManager.get_entry`: first entry with the given name. -/
def get_entry (entries : List APIEntry) (n : String) : Option APIEntry :=
  entries.find? (fun e => e.name == n)

/-- `APIEntryManager.match_entries`: filter the (enabled, unless
`only_enabled=False`) entries through `check_activate`; the returned deep
copies are the values themselves in this immutable model. -/
def match_entries (compiles : String → Bool) (search : String → String → Bool)
    (st : MgrState) (text user_id group_id session_id : String)
    (is_admin only_enabled : Bool) : List APIEntry :=
  let cands := if only_enabled then st.entries.filter (fun e => e.enabled) else st.entries
  cands.filter (fun e =>
    check_activate compiles search e text user_id group_id session_id is_admin)

/-- Set `valid` on the first entry with the given name (the in-memory
mutation `entry.valid = valid`). -/
def update_first_valid : List APIEntry → String → Bool → List APIEntry
  | [], _, _ => []
  | e :: es, n, v =>
    if e.name = n then { e with valid := v } :: es
    else e :: update_first_valid es n v

/-- Set `valid` on the last pool row with the given name: `cfg_map` is keyed
by name with later rows winning, and the mutated row object sits in the
pool. -/
def update_last_valid (l : List APIEntry) (n : String) (v : Bool) : List APIEntry :=
  (update_first_valid l.reverse n v).reverse

/-- The accumulator of the `set_entries_valid` loop. -/
structure SEVAcc where
  st : MgrState
  success : List String
  failed : List String
  dirty : List String
  changed : Bool

/-- One iteration of the `set_entries_valid` loop. -/
def sev_step (v : Bool) (acc : SEVAcc) (n : String) : SEVAcc :=
  match get_entry acc.st.entries n with
  | none => ⟨acc.st, acc.success, acc.failed ++ [n], acc.dirty, acc.changed⟩
  | some e =>
    if e.valid ≠ v then
      ⟨⟨update_first_valid acc.st.entries n v, update_last_valid acc.st.pool n v⟩,
       acc.success ++ [n], acc.failed,
       (if n ∈ acc.dirty then acc.dirty else acc.dirty ++ [n]), true⟩
    else
      ⟨acc.st, acc.success ++ [n], acc.failed, acc.dirty, acc.changed⟩

/-- The outcome of `set_entries_valid`: the new state, the returned
`(success, failed)` name lists, the rows written to the database (`[]` means
no write happened) and whether a change notification fired. -/
structure SEVResult where
  st : MgrState
  success : List String
  failed : List String
  upserts : List APIEntry
  emitted : Bool
deriving DecidableEq

/-- `APIEntryManager.set_entries_valid`. -/
def set_entries_valid (mgr : MgrState) (names : List String) (v : Bool) : SEVResult :=
  let a := names.foldl (sev_step v) ⟨mgr, [], [], [], false⟩
  if a.changed then
    ⟨a.st, a.success, a.failed,
     a.st.entries.filter (fun e => e.name ∈ a.dirty), true⟩
  else
    ⟨a.st, a.success, a.failed, [], false⟩

/-! ## `scheduler.py`: `APISchedulerService`

`CronTrigger.from_crontab` belongs to the external `apscheduler` library; it
is abstracted as the predicate `cronValid` (whether the expression parses as
a 5-field crontab).  A registered job is the pair `(job id, entry name)`. -/

/-- `APISchedulerService._try_register_entry`: skip blank crons, skip (with a
logged warning) expressions the cron parser rejects, else add the job with
`replace_existing=True`. -/
def try_register_entry (cronValid : String → Bool) (jobs : List (String × String))
    (e : APIEntry) : List (String × String) :=
  let expr := pyStrip e.cron
  if expr = "" then jobs
  else if cronValid expr then
    jobs.filter (fun j => j.1 ≠ "loreentry:" ++ e.name) ++
      [("loreentry:" ++ e.name, e.name)]
  else jobs

/-- `APISchedulerService._register_all` from an empty job table (the state
`start`/`reload` rebuild): register every enabled entry in turn. -/
def register_all (cronValid : String → Bool) (entries : List APIEntry) :
    List (String × String) :=
  (entries.filter (fun e => e.enabled)).foldl (try_register_entry cronValid) []

/-! ## `data_service/remote_data.py`: `stream_test_apis`

One test's outcome is a `RequestResult` or (defensively) an exception.  The
per-site workers interleave nondeterministically through the shared queue;
the completion order is the explicit argument `order`, a permutation of the
tested pairs.  The Python `set` of succeeded names is modelled as an
insertion-ordered duplicate-free list (membership is all that matters). -/

/-- The outcome a site worker queues for one entry. -/
inductive TestOutcome
  | res (r : RequestResult)
  | exc (msg : String)

/-- A streamed server-sent event. -/
inductive StreamEvent
  | start (total completed : Nat)
  | progress (name url : String) (completed total : Nat) (valid : Bool)
      (status : Option Int) (content_type final_url reason preview : String)
  | done (total completed : Nat) (valid invalid : List String)
      (success_count fail_count : Nat)
deriving DecidableEq

/-- Whether an event is a progress event. -/
def StreamEvent.isProgress : StreamEvent → Bool
  | .progress .. => true
  | _ => false

/-- `RemoteDataService._build_test_reason`. -/
def build_test_reason (r : RequestResult) : String :=
  match r.error with
  | some e => e
  | none =>
    match r.status with
    | none => "No HTTP status"
    | some v =>
      if v = 0 then "No HTTP status"
      else if v < 200 ∨ 300 ≤ v then "HTTP " ++ intToStr v
      else if r.raw_content ≠ none ∧ r.raw_content.getD [] = [] then
        "Empty binary response"
      else if r.raw_text ≠ none ∧ pyStrip (r.raw_text.getD "") = "" then
        "Empty text response"
      else if ¬ is_valid r then "Business validation failed"
      else "ok"

/-- `RemoteDataService._build_result_preview` (limit 220). -/
def build_result_preview (r : RequestResult) : String :=
  if r.raw_text.getD "" ≠ "" then
    let t := String.mk ((pyStrip (r.raw_text.getD "")).toList.map
      (fun c => if c = '\r' then ' ' else if c = '\n' then ' ' else c))
    if 220 < t.length then strTake t 220 ++ "..." else t
  else if r.raw_content.getD [] ≠ [] then
    "<binary " ++ natToStr (r.raw_content.getD []).length ++ " bytes>"
  else ""

/-- The state of the event-consuming loop. -/
structure ProgressAcc where
  events : List StreamEvent
  succeeded : List String
  completed : Nat

/-- Consume one completed test from the queue: emit its progress event and
record a success. -/
def progress_step (total : Nat) (acc : ProgressAcc) (item : APIEntry × TestOutcome) :
    ProgressAcc :=
  let e := item.1
  let completed := acc.completed + 1
  match item.2 with
  | .exc m =>
    ⟨acc.events ++ [.progress e.name e.url completed total false none "" "" m ""],
     acc.succeeded, completed⟩
  | .res r =>
    let v := is_valid r
    let succ := if v then
        (if e.name ∈ acc.succeeded then acc.succeeded else acc.succeeded ++ [e.name])
      else acc.succeeded
    ⟨acc.events ++ [.progress e.name e.url completed total v r.status
        (r.content_type.getD "") (r.final_url.getD "") (build_test_reason r)
        (build_result_preview r)],
     succ, completed⟩

/-- `RemoteDataService.stream_test_apis`: the full ordered event sequence of
one batch test over `tests` (each entry with its outcome), with `order` the
completion order across the site workers, plus the manager state after the
two-pass validity update. -/
def stream_test_apis (tests : List (APIEntry × TestOutcome))
    (order : List (APIEntry × TestOutcome)) (mgr : MgrState) :
    List StreamEvent × MgrState :=
  let total := tests.length
  if total = 0 then
    ([.start 0 0, .done 0 0 [] [] 0 0], mgr)
  else
    let acc := order.foldl (progress_step total) ⟨[], [], 0⟩
    let success_names := acc.succeeded
    let failed_names :=
      ((tests.map (fun p => p.1)).filter (fun e => e.name ∉ success_names)).map
        (fun e => e.name)
    let m1 := (set_entries_valid mgr success_names true).st
    let m2 := (set_entries_valid m1 failed_names false).st
    (.start total 0 :: acc.events ++
       [.done total acc.completed success_names failed_names
          success_names.length failed_names.length],
     m2)

/-! ## General lemmas -/

/-! ## The `set_entries_valid` frame relation -/


/-- An entry with its `valid` flag blanked: two entries agree on every field
other than `valid` iff their `eraseValid` images are equal. -/
def eraseValid (e : APIEntry) : APIEntry := { e with valid := false }

/-- The frame relation of `set_entries_valid`: the new entry agrees with the
old one on every field other than `valid`, and is entirely unchanged when
the old entry's name was not named in the call. -/
def frameS (names : List String) (e e' : APIEntry) : Prop :=
  eraseValid e' = eraseValid e ∧ (e.name ∉ names → e' = e)



/-- The entry name a progress event reports. -/
def StreamEvent.progressName : StreamEvent → String
  | .progress n _ _ _ _ _ _ _ _ _ => n
  | _ => ""

set_option maxRecDepth 100000

/-- String append is left-cancellative. -/
lemma string_append_cancel (p a b : String) (h : p ++ a = p ++ b) : a = b := by
  have hd : (p ++ a).data = (p ++ b).data := congrArg String.data h
  rw [String.data_append, String.data_append] at hd
  cases a
  cases b
  exact congrArg String.mk (List.append_cancel_left hd)

/-- Filtering out an id that no job carries is the identity. -/
lemma filter_no_id (jobs : List (String × String)) (x : String)
    (h : ∀ j ∈ jobs, j.1 ≠ x) : jobs.filter (fun j => j.1 ≠ x) = jobs :=
  List.filter_eq_self.mpr (fun a ha => by simp [h a ha])

/-! ## C9: scheduler registration -/

/-- The job table a `_try_register_entry` fold builds over entries with fresh,
pairwise-distinct names: one job per entry whose (stripped) cron expression is
non-blank and accepted by the cron parser. -/
lemma register_fold (cronValid : String → Bool) (es : List APIEntry)
    (jobs : List (String × String))
    (h1 : ∀ e ∈ es, ∀ j ∈ jobs, j.1 ≠ "loreentry:" ++ e.name)
    (h2 : (es.map (fun e => e.name)).Nodup) :
    es.foldl (try_register_entry cronValid) jobs =
      jobs ++ (es.filter (fun e =>
        pyStrip e.cron ≠ "" && cronValid (pyStrip e.cron))).map
          (fun e => ("loreentry:" ++ e.name, e.name)) := by
  induction es generalizing jobs with
  | nil => simp
  | cons e es ih =>
    simp only [List.map_cons, List.nodup_cons] at h2
    simp only [List.foldl_cons]
    by_cases hc : pyStrip e.cron = ""
    · rw [show try_register_entry cronValid jobs e = jobs by
        simp [try_register_entry, hc]]
      rw [ih jobs (fun a ha j hj => h1 a (List.mem_cons_of_mem _ ha) j hj) h2.2]
      simp [List.filter_cons, hc]
    · by_cases hv : cronValid (pyStrip e.cron)
      · have hstep : try_register_entry cronValid jobs e =
            jobs ++ [("loreentry:" ++ e.name, e.name)] := by
          simp only [try_register_entry, if_neg hc, if_pos hv]
          rw [filter_no_id jobs _ (h1 e (List.mem_cons_self _ _))]
        rw [hstep]
        rw [ih _ ?_ h2.2]
        · simp [List.filter_cons, hc, hv]
        · intro a ha j hj
          rcases List.mem_append.mp hj with hj1 | hj2
          · exact h1 a (List.mem_cons_of_mem _ ha) j hj1
          · have hj2' : j = ("loreentry:" ++ e.name, e.name) := by simpa using hj2
            subst hj2'
            intro heq
            have hn : e.name = a.name := string_append_cancel _ _ _ heq
            exact h2.1 (hn ▸ List.mem_map_of_mem (fun x => x.name) ha)
      · rw [show try_register_entry cronValid jobs e = jobs by
          simp [try_register_entry, hc, hv]]
        rw [ih jobs (fun a ha j hj => h1 a (List.mem_cons_of_mem _ ha) j hj) h2.2]
        simp [List.filter_cons, hc, hv]

/-- C9: when the scheduler rebuilds its job table, a cron job is registered
exactly for the entries with `enabled=true` whose (stripped) cron expression
the cron parser accepts; entries with rejected cron strings are skipped, and
the rebuild is a total function — it cannot raise.  `cronValid` abstracts
`CronTrigger.from_crontab` (the external apscheduler 5-field parser), which
rejects the empty string; entry names are unique in the registry. -/
theorem C9_register_exactly_valid_cron (cronValid : String → Bool)
    (entries : List APIEntry)
    (hempty : cronValid "" = false)
    (hnodup : (entries.map (fun e => e.name)).Nodup) :
    register_all cronValid entries =
      (entries.filter (fun e => e.enabled && cronValid (pyStrip e.cron))).map
        (fun e => ("loreentry:" ++ e.name, e.name)) := by
  unfold register_all
  rw [register_fold cronValid _ [] (by simp)
    (List.Nodup.sublist ((List.filter_sublist _).map _) hnodup)]
  rw [List.nil_append, List.filter_filter]
  apply congrArg (List.map _)
  apply List.filter_congr
  intro e he
  by_cases h : pyStrip e.cron = ""
  · simp [h, hempty]
  · simp [h, Bool.and_comm]

/-- C9 witness: a registry with a valid-cron enabled entry, an invalid-cron
enabled entry and a disabled entry registers exactly the first. -/
theorem C9_witness :
    register_all (fun s => s == "* * * * *")
      [⟨"ok", "http://a/x", "text", [], "", true, [], [], "* * * * *", true, ""⟩,
       ⟨"bad", "http://b/y", "text", [], "", true, [], [], "not a cron", true, ""⟩,
       ⟨"off", "http://c/z", "text", [], "", false, [], [], "* * * * *", true, ""⟩] =
      [("loreentry:ok", "ok")] :=
  (C9_register_exactly_valid_cron (fun s => s == "* * * * *") _
    (by decide) (by decide)).trans (by decide)

/-! ## C4: matching correctness -/

/-- C4 counterexample: an enabled, valid entry with `scope=["admin"]` and a
matching keyword is returned by `match_entries` for a caller with
`is_admin=false` whose `user_id` is the literal string `"admin"` — the scope
loop compares each scope token against the caller identifiers, so the token
`"admin"` also matches them.  This refutes "matched only when the caller's
is_admin flag is true". -/
theorem C4_counterexample :
    match_entries (fun _ => true) (fun _ _ => true)
      ⟨[⟨"secret", "http://x", "text", [], "", true, ["admin"], ["k"], "", true, ""⟩],
       [⟨"secret", "http://x", "text", [], "", true, ["admin"], ["k"], "", true, ""⟩]⟩
      "k" "admin" "" "" false true =
      [⟨"secret", "http://x", "text", [], "", true, ["admin"], ["k"], "", true, ""⟩] := by
  decide

/-- C4 (amended): an entry with `scope=["admin"]` passes the scope gate iff
the caller is admin-flagged or one of its user/group/session identifiers is
the literal string `"admin"`; an entry with empty scope passes the scope gate
for every caller; and an entry with `enabled=false` or `valid=false` is never
returned by `match_entries`, whatever the keywords, scope, caller, or
`only_enabled` flag. -/
theorem C4_scope_gate_amended (compiles : String → Bool)
    (search : String → String → Bool) (st : MgrState) (e : APIEntry)
    (text u g sid : String) (adm only_en : Bool) :
    (e.scope = ["admin"] →
      (allow_scope e u g sid adm = true ↔
        (adm = true ∨ u = "admin" ∨ g = "admin" ∨ sid = "admin"))) ∧
    (e.scope = [] → allow_scope e u g sid adm = true) ∧
    ((e.enabled = false ∨ e.valid = false) →
      e ∉ match_entries compiles search st text u g sid adm only_en) := by
  refine ⟨?_, ?_, ?_⟩
  · intro hs
    simp [allow_scope, hs, @eq_comm String "admin", or_assoc]
  · intro hs
    simp [allow_scope, hs]
  · intro hev hmem
    unfold match_entries at hmem
    have hpred := (List.mem_filter.mp hmem).2
    rcases hev with h | h <;> simp [check_activate, h] at hpred

/-- C4 witness: the three amended parts at concrete entries and callers. -/
theorem C4_witness :
    (allow_scope ⟨"a", "u", "text", [], "", true, ["admin"], ["k"], "", true, ""⟩
        "x" "y" "z" true = true) ∧
    (allow_scope ⟨"b", "u", "text", [], "", true, [], ["k"], "", true, ""⟩
        "x" "y" "z" false = true) ∧
    (⟨"c", "u", "text", [], "", false, [], ["k"], "", true, ""⟩ ∉
      match_entries (fun _ => true) (fun _ _ => true)
        ⟨[⟨"c", "u", "text", [], "", false, [], ["k"], "", true, ""⟩], []⟩
        "k" "" "" "" false false) :=
  ⟨((C4_scope_gate_amended (fun _ => true) (fun _ _ => true) ⟨[], []⟩ _
      "t" "x" "y" "z" true true).1 rfl).mpr (Or.inl rfl),
   (C4_scope_gate_amended (fun _ => true) (fun _ _ => true) ⟨[], []⟩ _
      "t" "x" "y" "z" false true).2.1 rfl,
   (C4_scope_gate_amended (fun _ => true) (fun _ _ => true)
      ⟨[⟨"c", "u", "text", [], "", false, [], ["k"], "", true, ""⟩], []⟩ _
      "k" "" "" "" false false).2.2 (Or.inl rfl)⟩

/-! ## C5: validity classification -/

/-- A leading-segment match is an occurrence. -/
lemma charsContain_of_startWith (n h : List Char) (hs : charsStartWith h n = true) :
    charsContain n h = true := by
  cases h with
  | nil =>
    cases n with
    | nil => rfl
    | cons d ds => simp [charsStartWith] at hs
  | cons c cs => simp [charsContain, hs]

/-- An occurrence in the tail is an occurrence. -/
lemma charsContain_cons (n : List Char) (c : Char) (cs : List Char)
    (hs : charsContain n cs = true) : charsContain n (c :: cs) = true := by
  simp [charsContain, hs]

/-- A leading match of `a ++ b` contains an occurrence of `b`. -/
lemma charsContain_of_startWith_append (b : List Char) :
    ∀ (a h : List Char), charsStartWith h (a ++ b) = true → charsContain b h = true := by
  intro a
  induction a with
  | nil => exact fun h hs => charsContain_of_startWith b h hs
  | cons x xs ih =>
    intro h hs
    cases h with
    | nil => simp [charsStartWith] at hs
    | cons y ys =>
      simp only [List.cons_append, charsStartWith, Bool.and_eq_true] at hs
      exact charsContain_cons _ _ _ (ih ys hs.2)

/-- An occurrence of `a ++ b` contains an occurrence of `b`. -/
lemma charsContain_append_right (a b : List Char) :
    ∀ (h : List Char), charsContain (a ++ b) h = true → charsContain b h = true := by
  intro h
  induction h with
  | nil =>
    intro hc
    have : a ++ b = [] := by
      cases hab : a ++ b with
      | nil => rfl
      | cons x xs => rw [hab] at hc; simp [charsContain, charsStartWith] at hc
    have hb : b = [] := (List.append_eq_nil.mp this).2
    subst hb
    rfl
  | cons c cs ih =>
    intro hc
    simp only [charsContain, Bool.or_eq_true] at hc
    rcases hc with hs | htail
    · exact charsContain_of_startWith_append b a _ hs
    · exact charsContain_cons _ _ _ (ih htail)

/-- A leading-segment match survives a character map. -/
lemma charsStartWith_map (f : Char → Char) :
    ∀ (n h : List Char), charsStartWith h n = true →
      charsStartWith (h.map f) (n.map f) = true := by
  intro n
  induction n with
  | nil => intro h _; cases h <;> rfl
  | cons d ds ih =>
    intro h hs
    cases h with
    | nil => simp [charsStartWith] at hs
    | cons c cs =>
      simp only [charsStartWith, Bool.and_eq_true, decide_eq_true_eq] at hs
      simp only [List.map_cons, charsStartWith, Bool.and_eq_true, decide_eq_true_eq]
      exact ⟨by rw [hs.1], ih cs hs.2⟩

/-- An occurrence survives a character map. -/
lemma charsContain_map (f : Char → Char) (n : List Char) :
    ∀ (h : List Char), charsContain n h = true →
      charsContain (n.map f) (h.map f) = true := by
  intro h
  induction h with
  | nil =>
    intro hc
    cases n with
    | nil => rfl
    | cons d ds => simp [charsContain, charsStartWith] at hc
  | cons c cs ih =>
    intro hc
    simp only [charsContain, Bool.or_eq_true] at hc
    rcases hc with hs | htail
    · exact charsContain_of_startWith _ _ (charsStartWith_map f _ _ hs)
    · exact charsContain_cons _ _ _ (ih htail)

/-- A body containing `404 Not Found` contains, lowered, the error phrase
`not found` the classifier looks for. -/
lemma lower_contains_notfound (s : String)
    (h : strContains s "404 Not Found" = true) :
    strContains (lowerStr s) "not found" = true := by
  unfold strContains at h ⊢
  have h2 := charsContain_map Char.toLower _ _ h
  have heq : ("404 Not Found".toList.map Char.toLower) =
      "404 ".toList ++ "not found".toList := by decide
  rw [heq] at h2
  have h3 := charsContain_append_right _ _ _ h2
  simpa [lowerStr] using h3

/-- C5: with no transport error and HTTP 200, the JSON body
`{"code":403,"msg":"forbidden"}` is classified invalid and
`{"code":0,"data":[]}` valid, for every content type; a body reaching the
HTML branch (not JSON-typed nor bracket-delimited, HTML content type or an
`<html` marker) that contains `404 Not Found` is invalid; and any non-empty
body that is neither JSON-like nor HTML-like is valid. -/
theorem C5_validity_classification :
    (∀ ct fu : Option String,
      is_valid ⟨some 200, some "\x7b\"code\":403,\"msg\":\"forbidden\"\x7d", none, ct, none, fu⟩
        = false) ∧
    (∀ ct fu : Option String,
      is_valid ⟨some 200, some "\x7b\"code\":0,\"data\":[]\x7d", none, ct, none, fu⟩ = true) ∧
    (∀ (body : String) (ct fu : Option String),
      body ≠ "" →
      strContains (lowerStr (ct.getD "")) "application/json" = false →
      (strStartsWith (pyStrip body) "\x7b" && strEndsWith (pyStrip body) "\x7d") = false →
      (strStartsWith (pyStrip body) "[" && strEndsWith (pyStrip body) "]") = false →
      (strContains (lowerStr (ct.getD "")) "text/html"
        || strContains (lowerStr (pyStrip body)) "<html") = true →
      strContains (pyStrip body) "404 Not Found" = true →
      is_valid ⟨some 200, some body, none, ct, none, fu⟩ = false) ∧
    (∀ (body : String) (ct fu : Option String),
      body ≠ "" →
      pyStrip body ≠ "" →
      strContains (lowerStr (ct.getD "")) "application/json" = false →
      (strStartsWith (pyStrip body) "\x7b" && strEndsWith (pyStrip body) "\x7d") = false →
      (strStartsWith (pyStrip body) "[" && strEndsWith (pyStrip body) "]") = false →
      strContains (lowerStr (ct.getD "")) "text/html" = false →
      strContains (lowerStr (pyStrip body)) "<html" = false →
      is_valid ⟨some 200, some body, none, ct, none, fu⟩ = true) := by
  refine ⟨?_, ?_, ?_, ?_⟩
  · intro ct fu
    cases hc : strContains (lowerStr (ct.getD "")) "application/json" <;>
      · simp only [is_valid, RequestResult.ok, hc]
        rw [if_neg (by decide), if_neg (by decide), if_neg (by decide),
          if_neg (by decide), if_neg (by decide), if_pos (by decide)]
        decide
  · intro ct fu
    cases hc : strContains (lowerStr (ct.getD "")) "application/json" <;>
      · simp only [is_valid, RequestResult.ok, hc]
        rw [if_neg (by decide), if_neg (by decide), if_neg (by decide),
          if_neg (by decide), if_neg (by decide), if_pos (by decide)]
        decide
  · intro body ct fu h1 h2 h3 h4 h5 h6
    have hstrip : pyStrip body ≠ "" := by
      intro he
      rw [he] at h6
      simp [strContains, charsContain, charsStartWith] at h6
    have hnf : strContains (lowerStr (pyStrip body)) "not found" = true :=
      lower_contains_notfound _ h6
    have hany : (error_keywords.any fun k =>
        strContains (lowerStr (pyStrip body)) k) = true :=
      List.any_eq_true.mpr ⟨"not found", by decide, hnf⟩
    simp only [is_valid, RequestResult.ok, h2, h3, h4, h5]
    rw [if_neg (by decide), if_neg (by decide), if_neg (by decide),
      if_neg h1, if_neg hstrip, if_neg (by decide), if_pos (by simp [h5]),
      hany]
    rfl
  · intro body ct fu h1 hstrip h2 h3 h4 h5 h6
    simp only [is_valid, RequestResult.ok, h2, h3, h4, h5, h6]
    rw [if_neg (by decide), if_neg (by decide), if_neg (by decide),
      if_neg h1, if_neg hstrip, if_neg (by decide), if_neg (by decide)]

/-- C5 witness: all four classifications at concrete bodies. -/
theorem C5_witness :
    is_valid ⟨some 200, some "\x7b\"code\":403,\"msg\":\"forbidden\"\x7d",
      none, none, none, none⟩ = false ∧
    is_valid ⟨some 200, some "\x7b\"code\":0,\"data\":[]\x7d",
      none, none, none, none⟩ = true ∧
    is_valid ⟨some 200, some "<html><body>404 Not Found</body></html>",
      none, none, none, none⟩ = false ∧
    is_valid ⟨some 200, some "why did the chicken",
      none, none, none, none⟩ = true :=
  ⟨C5_validity_classification.1 none none,
   C5_validity_classification.2.1 none none,
   C5_validity_classification.2.2.1 "<html><body>404 Not Found</body></html>"
     none none (by decide) (by decide) (by decide) (by decide) (by decide) (by decide),
   C5_validity_classification.2.2.2 "why did the chicken"
     none none (by decide) (by decide) (by decide) (by decide) (by decide)
     (by decide) (by decide)⟩

/-! ## Set and sorting membership lemmas -/

/-- Membership through the set-building fold. -/
lemma mem_listSet_fold (a : String) :
    ∀ (l acc : List String),
      (a ∈ l.foldl (fun acc h => if h ∈ acc then acc else acc ++ [h]) acc) ↔
        (a ∈ acc ∨ a ∈ l) := by
  intro l
  induction l with
  | nil => simp
  | cons x xs ih =>
    intro acc
    simp only [List.foldl_cons]
    by_cases hx : x ∈ acc
    · rw [if_pos hx, ih]
      constructor
      · rintro (h | h)
        · exact Or.inl h
        · exact Or.inr (List.mem_cons_of_mem _ h)
      · rintro (h | h)
        · exact Or.inl h
        · rcases List.mem_cons.mp h with rfl | h2
          · exact Or.inl hx
          · exact Or.inr h2
    · rw [if_neg hx, ih]
      simp [or_assoc, List.mem_cons]

/-- `listSet` keeps exactly the members of its input. -/
lemma mem_listSet (a : String) (l : List String) : a ∈ listSet l ↔ a ∈ l := by
  unfold listSet
  rw [mem_listSet_fold]
  simp

/-- Sorted insertion keeps exactly the members. -/
lemma mem_insertSorted (a x : String) (l : List String) :
    a ∈ insertSorted x l ↔ a = x ∨ a ∈ l := by
  induction l with
  | nil => simp [insertSorted]
  | cons y ys ih =>
    unfold insertSorted
    by_cases h : x ≤ y
    · simp [h, List.mem_cons]
    · simp only [if_neg h, List.mem_cons, ih]
      tauto

/-- `sortStrings` keeps exactly the members. -/
lemma mem_sortStrings (a : String) (l : List String) :
    a ∈ sortStrings l ↔ a ∈ l := by
  unfold sortStrings
  induction l with
  | nil => simp
  | cons x xs ih =>
    simp only [List.foldr_cons, mem_insertSorted, ih, List.mem_cons]

/-! ## `pyStrip` lemmas -/

/-- `pyStrip` is Mathlib's `rdropWhile` after `dropWhile`. -/
lemma pyStrip_eq_rdrop (s : String) :
    pyStrip s = String.mk (List.rdropWhile py_isspace (s.data.dropWhile py_isspace)) := rfl

/-- A list whose head is not whitespace survives `dropWhile`. -/
lemma dropWhile_eq_self_of_head (l : List Char)
    (h : ∀ c ∈ l.head?, py_isspace c = false) :
    l.dropWhile py_isspace = l := by
  cases l with
  | nil => rfl
  | cons x xs =>
    rw [List.dropWhile_cons, if_neg]
    simp [h x (by simp)]

/-- A string whose first and last characters are not whitespace is
strip-invariant. -/
lemma pyStrip_of_ends (l : List Char)
    (h1 : ∀ c ∈ l.head?, py_isspace c = false)
    (h2 : ∀ c ∈ l.getLast?, py_isspace c = false) :
    pyStrip (String.mk l) = String.mk l := by
  rw [pyStrip_eq_rdrop]
  have hd : l.dropWhile py_isspace = l := dropWhile_eq_self_of_head l h1
  show String.mk (List.rdropWhile py_isspace (l.dropWhile py_isspace)) = String.mk l
  rw [hd]
  congr 1
  rw [List.rdropWhile_eq_self_iff]
  intro hl
  have := h2 (l.getLast hl) (by rw [List.getLast?_eq_getLast l hl]; rfl)
  simp [this]

/-- A string with no whitespace characters at all is strip-invariant. -/
lemma pyStrip_all (l : List Char) (h : ∀ c ∈ l, py_isspace c = false) :
    pyStrip (String.mk l) = String.mk l :=
  pyStrip_of_ends l (fun c hc => h c (List.mem_of_mem_head? hc))
    (fun c hc => h c (by
      have := List.getLast?_eq_getLast l ?hn
      case hn =>
        intro he
        rw [he] at hc
        simp at hc
      rw [this] at hc
      simp only [Option.mem_def, Option.some_inj] at hc
      rw [← hc]
      exact List.getLast_mem _))

/-- `str.strip()` is idempotent. -/
lemma pyStrip_idem (s : String) : pyStrip (pyStrip s) = pyStrip s := by
  rw [pyStrip_eq_rdrop s]
  rw [pyStrip_eq_rdrop (String.mk (List.rdropWhile py_isspace (s.data.dropWhile py_isspace)))]
  show String.mk (List.rdropWhile py_isspace
      ((List.rdropWhile py_isspace (s.data.dropWhile py_isspace)).dropWhile py_isspace)) = _
  have hpre := List.rdropWhile_prefix py_isspace (s.data.dropWhile py_isspace)
  have hself : (List.rdropWhile py_isspace (s.data.dropWhile py_isspace)).dropWhile py_isspace
      = List.rdropWhile py_isspace (s.data.dropWhile py_isspace) := by
    rw [List.dropWhile_eq_self_iff]
    intro hl
    have hlt : 0 < (s.data.dropWhile py_isspace).length :=
      lt_of_lt_of_le hl hpre.length_le
    have hg := List.dropWhile_eq_self_iff.mp (List.dropWhile_idempotent py_isspace s.data) hlt
    have : (List.rdropWhile py_isspace (s.data.dropWhile py_isspace)).get ⟨0, hl⟩ =
        (s.data.dropWhile py_isspace).get ⟨0, hlt⟩ := by
      simpa using hpre.getElem hl
    rw [this]
    exact hg
  rw [hself, List.rdropWhile_idempotent]

/-! ## Digest shape lemmas -/

/-- A compression round preserves the state length. -/
lemma roundFn_length (st : List Nat) (k w : Nat) : (roundFn st k w).length = st.length := by
  unfold roundFn
  split
  · simp
  · rfl

/-- The 64-round fold preserves the state length. -/
lemma foldl_roundFn_length (l : List (Nat × Nat)) :
    ∀ st : List Nat, (l.foldl (fun s kw => roundFn s kw.1 kw.2) st).length = st.length := by
  induction l with
  | nil => intro st; rfl
  | cons x xs ih => intro st; rw [List.foldl_cons, ih, roundFn_length]

/-- Compressing a block preserves the hash-state length. -/
lemma compressBlock_length (h b : List Nat) : (compressBlock h b).length = h.length := by
  unfold compressBlock
  simp [List.length_zip, foldl_roundFn_length]

/-- The block fold preserves the hash-state length. -/
lemma foldl_compress_length (cs : List (List Nat)) :
    ∀ h : List Nat, (cs.foldl compressBlock h).length = h.length := by
  induction cs with
  | nil => intro h; rfl
  | cons c cs ih => intro h; rw [List.foldl_cons, ih, compressBlock_length]

/-- Word serialization yields 4 bytes per word. -/
lemma wordsToBytes_length (ws : List Nat) : (wordsToBytes ws).length = 4 * ws.length := by
  induction ws with
  | nil => rfl
  | cons w ws ih =>
    unfold wordsToBytes at ih ⊢
    simp only [List.flatMap_cons, List.length_append, ih, List.length_cons,
      List.length_nil]
    omega

/-- A SHA-256 digest is 32 bytes. -/
lemma sha256_length (msg : List Nat) : (sha256 msg).length = 32 := by
  unfold sha256
  rw [wordsToBytes_length, foldl_compress_length]
  rfl

/-- Digest bytes are bytes. -/
lemma sha256_bytes_lt (msg : List Nat) : ∀ b ∈ sha256 msg, b < 256 := by
  intro b hb
  unfold sha256 wordsToBytes at hb
  rcases List.mem_flatMap.mp hb with ⟨w, _, hw⟩
  have h255 : ∀ x : Nat, x &&& 255 < 256 :=
    fun x => lt_of_le_of_lt (Nat.and_le_right) (by norm_num)
  simp only [List.mem_cons, List.not_mem_nil, or_false] at hw
  rcases hw with h | h | h | h <;> (rw [h]; exact h255 _)

/-- Hex digits are not whitespace. -/
lemma hexDigit_not_space (n : Nat) (h : n < 16) : py_isspace (hexDigit n) = false := by
  interval_cases n <;> decide

/-- Hex renderings of byte lists contain no whitespace. -/
lemma hexOfBytes_chars (bs : List Nat) (hb : ∀ b ∈ bs, b < 256) :
    ∀ c ∈ (hexOfBytes bs).data, py_isspace c = false := by
  intro c hc
  have hm : c ∈ bs.flatMap (fun b => [hexDigit (b / 16), hexDigit (b % 16)]) := hc
  rcases List.mem_flatMap.mp hm with ⟨b, hbm, hcm⟩
  have hblt := hb b hbm
  simp only [List.mem_cons, List.not_mem_nil, or_false] at hcm
  rcases hcm with h | h <;> rw [h]
  · exact hexDigit_not_space _ ((Nat.div_lt_iff_lt_mul (by norm_num)).mpr (by omega))
  · exact hexDigit_not_space _ (Nat.mod_lt _ (by norm_num))

/-- A non-empty byte list has a non-empty hex rendering. -/
lemma hexOfBytes_ne_empty (bs : List Nat) (h : bs ≠ []) : hexOfBytes bs ≠ "" := by
  cases bs with
  | nil => exact absurd rfl h
  | cons b bs =>
    unfold hexOfBytes
    intro he
    have hc := congrArg String.data he
    simp [List.flatMap_cons] at hc

/-- A digest is never the empty byte list. -/
lemma sha256_ne_nil (msg : List Nat) : sha256 msg ≠ [] := by
  intro he
  have := sha256_length msg
  rw [he] at this
  simp at this

/-- A text content hash is a non-empty string. -/
lemma hash_text_ne_empty (s : String) : hash_text s ≠ "" :=
  hexOfBytes_ne_empty _ (sha256_ne_nil _)

/-- A binary content hash is a non-empty string. -/
lemma hash_binary_ne_empty (bs : List Nat) : hash_binary bs ≠ "" :=
  hexOfBytes_ne_empty _ (sha256_ne_nil _)

/-- Hex renderings of byte lists are strip-invariant. -/
lemma pyStrip_hexOfBytes (bs : List Nat) (hb : ∀ b ∈ bs, b < 256) :
    pyStrip (hexOfBytes bs) = hexOfBytes bs :=
  pyStrip_all _ (hexOfBytes_chars bs hb)

/-- A binary content hash is strip-invariant. -/
lemma pyStrip_hash_binary (bs : List Nat) :
    pyStrip (hash_binary bs) = hash_binary bs :=
  pyStrip_hexOfBytes _ (sha256_bytes_lt bs)

/-- A text content hash is strip-invariant. -/
lemma pyStrip_hash_text (s : String) :
    pyStrip (hash_text s) = hash_text s :=
  pyStrip_hexOfBytes _ (sha256_bytes_lt (utf8 s))

/-! ## C1, C2, C7: the text and binary store -/

/-- After `_load_text_hashes`, the index is persisted with the current
signature, and every non-empty loaded hash appears in the stored, cleaned
hash list. -/
lemma load_text_hashes_spec (idx : IndexState) (items : List String) (cur : Int × Int) :
    ∃ hs, (load_text_hashes idx items cur).2 = .stored ⟨hs, cur.1, cur.2⟩ ∧
      (∀ a, a ∈ (load_text_hashes idx items cur).1 → a ≠ "" →
        a ∈ listSet (hs.filter (fun h => h ≠ ""))) := by
  have rebuild_case : ∀ a, a ∈ listSet (items.map hash_text) → a ≠ "" →
      a ∈ listSet ((sortStrings (listSet (items.map hash_text))).filter
        (fun h => h ≠ "")) := by
    intro a ha hne
    rw [mem_listSet, List.mem_filter]
    exact ⟨(mem_sortStrings _ _).mpr ha, by simp [hne]⟩
  unfold load_text_hashes
  match idx with
  | .stored d =>
    by_cases hsig : d.source_mtime = cur.1 ∧ d.source_size = cur.2
    · refine ⟨d.hashes, ?_, ?_⟩
      · simp only [if_pos hsig]
        rw [← hsig.1, ← hsig.2]
      · simp only [if_pos hsig]
        exact fun a ha _ => ha
    · exact ⟨sortStrings (listSet (items.map hash_text)), by simp only [if_neg hsig],
        by simp only [if_neg hsig]; exact rebuild_case⟩
  | .absent => exact ⟨sortStrings (listSet (items.map hash_text)), rfl, rebuild_case⟩
  | .corrupt => exact ⟨sortStrings (listSet (items.map hash_text)), rfl, rebuild_case⟩

/-- After any `_save_text` call the data file exists, the index carries the
file's current signature, and the saved text's content hash is in the
stored hash set. -/
lemma save_text_inv (env : TextEnv) (ds : TextDataset) (t : String) :
    ∃ f hs, (save_text env ds t).ds.file = some f ∧
      (save_text env ds t).ds.index = .stored ⟨hs, f.mtime, f.size⟩ ∧
      hash_text (norm_cr t) ∈ listSet (hs.filter (fun h => h ≠ "")) := by
  obtain ⟨f0, hf0⟩ : ∃ f0, (match ds.file with
      | none => (⟨[], env.create_mtime, env.create_size⟩ : TextFileState)
      | some f => f) = f0 := ⟨_, rfl⟩
  obtain ⟨hs, h2, h1⟩ := load_text_hashes_spec ds.index f0.items (f0.mtime, f0.size)
  unfold save_text
  rw [hf0]
  by_cases hmem : hash_text (norm_cr t) ∈
      (load_text_hashes ds.index f0.items (f0.mtime, f0.size)).1
  · simp only [if_pos hmem, h2]
    exact ⟨f0, hs, rfl, by simp, h1 _ hmem (hash_text_ne_empty _)⟩
  · simp only [if_neg hmem]
    refine ⟨⟨f0.items ++ [norm_cr t], env.append_mtime, env.append_size⟩,
      sortStrings ((load_text_hashes ds.index f0.items (f0.mtime, f0.size)).1
        ++ [hash_text (norm_cr t)]), rfl, rfl, ?_⟩
    rw [mem_listSet, List.mem_filter]
    refine ⟨(mem_sortStrings _ _).mpr (List.mem_append_right _ (by simp)),
      by simp [hash_text_ne_empty]⟩

/-- A `_save_text` call on a consistent dataset whose index already holds
the content hash is a pure dedup hit: it returns `dedup_hit=true` and leaves
the dataset untouched. -/
lemma save_text_dup (env : TextEnv) (ds : TextDataset) (f : TextFileState)
    (hs : List String) (t : String)
    (hfile : ds.file = some f)
    (hidx : ds.index = .stored ⟨hs, f.mtime, f.size⟩)
    (hmem : hash_text (norm_cr t) ∈ listSet (hs.filter (fun h => h ≠ ""))) :
    save_text env ds t = ⟨ds, norm_cr t, true⟩ := by
  unfold save_text
  rw [hfile]
  dsimp only
  have hload : load_text_hashes ds.index f.items (f.mtime, f.size) =
      (listSet (hs.filter (fun h => h ≠ "")), ds.index) := by
    rw [hidx]
    unfold load_text_hashes
    simp
  rw [hload]
  simp only [if_pos hmem, hidx]
  simp only [reduceCtorEq, if_neg]
  rw [← hidx]
  cases hds : ds with
  | mk dfile dindex =>
    rw [hds] at hfile
    simp at hfile
    simp [hfile]

/-- Members of `d[k] = v` are the new pair or old pairs with another key. -/
lemma mem_dictSet (d : List (String × String)) (k v : String) (p : String × String)
    (hp : p ∈ dictSet d k v) : p = (k, v) ∨ (p ∈ d ∧ p.1 ≠ k) := by
  unfold dictSet at hp
  by_cases ha : d.any (fun p => p.1 == k)
  · rw [if_pos ha] at hp
    rcases List.mem_map.mp hp with ⟨q, hq, hm⟩
    by_cases hqk : q.1 == k
    · rw [if_pos hqk] at hm
      exact Or.inl hm.symm
    · rw [if_neg hqk] at hm
      subst hm
      exact Or.inr ⟨hq, by simpa using hqk⟩
  · rw [if_neg ha] at hp
    rcases List.mem_append.mp hp with hd | hs
    · refine Or.inr ⟨hd, ?_⟩
      simp only [List.any_eq_true, not_exists, not_and] at ha
      have := ha p hd
      simpa using this
    · exact Or.inl (by simpa using hs)

/-- `d[k] = v` contains `(k, v)`. -/
lemma mem_dictSet_self (d : List (String × String)) (k v : String) :
    (k, v) ∈ dictSet d k v := by
  unfold dictSet
  by_cases ha : d.any (fun p => p.1 == k)
  · rw [if_pos ha]
    rcases List.any_eq_true.mp ha with ⟨q, hq, hqk⟩
    exact List.mem_map.mpr ⟨q, hq, by rw [if_pos hqk]⟩
  · rw [if_neg ha]
    exact List.mem_append_right _ (by simp)

/-- `d[k] = v` preserves key uniqueness. -/
lemma dictSet_keys_nodup (d : List (String × String)) (k v : String)
    (h : (d.map Prod.fst).Nodup) : ((dictSet d k v).map Prod.fst).Nodup := by
  unfold dictSet
  by_cases ha : d.any (fun p => p.1 == k)
  · rw [if_pos ha]
    have : ((d.map (fun p => if p.1 == k then (k, v) else p)).map Prod.fst) =
        d.map Prod.fst := by
      rw [List.map_map]
      apply List.map_congr_left
      intro q hq
      by_cases hqk : q.1 == k
      · simp only [Function.comp_apply, if_pos hqk]
        exact (by simpa using hqk : q.1 = k).symm
      · have hne : ¬ q.1 = k := by simpa using hqk
        simp [Function.comp_apply, hne]
    rw [this]
    exact h
  · rw [if_neg ha]
    simp only [List.map_append, List.map_cons, List.map_nil]
    rw [List.nodup_append]
    refine ⟨h, List.nodup_singleton _, ?_⟩
    intro a hamem hsing
    simp only [List.mem_singleton] at hsing
    subst hsing
    rcases List.mem_map.mp hamem with ⟨q, hq, hqa⟩
    simp only [List.any_eq_true, not_exists, not_and] at ha
    exact absurd (by simpa using hqa : q.1 = a) (by simpa using ha q hq)

/-- With unique keys, lookup finds exactly the stored pair. -/
lemma dictGet_eq_some_of_mem_nodup (d : List (String × String)) (k v : String)
    (hn : (d.map Prod.fst).Nodup) (hm : (k, v) ∈ d) : dictGet d k = some v := by
  induction d with
  | nil => simp at hm
  | cons q qs ih =>
    simp only [List.map_cons, List.nodup_cons] at hn
    rcases List.mem_cons.mp hm with rfl | htail
    · simp [dictGet, List.find?]
    · by_cases hqk : q.1 == k
      · exfalso
        have hq1 : q.1 = k := by simpa using hqk
        have hkm : k ∈ qs.map Prod.fst := List.mem_map.mpr ⟨(k, v), htail, rfl⟩
        rw [hq1] at hn
        exact hn.1 hkm
      · unfold dictGet at ih ⊢
        rw [List.find?_cons_of_neg _ (by simpa using hqk)]
        exact ih hn.2 htail

/-- Sorted insertion permutes. -/
lemma insertPairSorted_perm (x : String × String) (l : List (String × String)) :
    (insertPairSorted x l).Perm (x :: l) := by
  induction l with
  | nil => exact List.Perm.refl _
  | cons y ys ih =>
    unfold insertPairSorted
    by_cases h : x.1 ≤ y.1
    · rw [if_pos h]
    · rw [if_neg h]
      exact (ih.cons y).trans (List.Perm.swap x y ys)

/-- Sorting the index by key is a permutation. -/
lemma sortPairs_perm (l : List (String × String)) : (sortPairs l).Perm l := by
  unfold sortPairs
  induction l with
  | nil => exact List.Perm.refl _
  | cons x xs ih =>
    simp only [List.foldr_cons]
    exact (insertPairSorted_perm x _).trans (ih.cons x)


/-- A loaded binary index has stripped, non-empty entries and unique keys. -/
lemma load_binary_index_clean (raw : List (String × String)) :
    (∀ p ∈ load_binary_index raw, CleanPair p) ∧
    ((load_binary_index raw).map Prod.fst).Nodup := by
  unfold load_binary_index
  suffices h : ∀ acc : List (String × String),
      (∀ p ∈ acc, CleanPair p) → ((acc.map Prod.fst).Nodup) →
      (∀ p ∈ raw.foldl (fun acc p =>
          let h := pyStrip p.1
          let f := pyStrip p.2
          if h ≠ "" ∧ f ≠ "" then dictSet acc h f else acc) acc, CleanPair p) ∧
      (((raw.foldl (fun acc p =>
          let h := pyStrip p.1
          let f := pyStrip p.2
          if h ≠ "" ∧ f ≠ "" then dictSet acc h f else acc) acc).map Prod.fst).Nodup) by
    exact h [] (by simp) (by simp)
  induction raw with
  | nil => intro acc h1 h2; exact ⟨h1, h2⟩
  | cons q qs ih =>
    intro acc h1 h2
    simp only [List.foldl_cons]
    by_cases hc : pyStrip q.1 ≠ "" ∧ pyStrip q.2 ≠ ""
    · rw [if_pos hc]
      refine ih _ ?_ (dictSet_keys_nodup _ _ _ h2)
      intro p hp
      rcases mem_dictSet _ _ _ _ hp with rfl | ⟨hmem, _⟩
      · exact ⟨pyStrip_idem _, hc.1, pyStrip_idem _, hc.2⟩
      · exact h1 p hmem
    · rw [if_neg hc]
      exact ih acc h1 h2

/-- Loading an index that is already clean with unique keys is the
identity: re-stripping changes nothing and no keys collide. -/
lemma load_of_clean (l : List (String × String))
    (hclean : ∀ p ∈ l, CleanPair p)
    (hnodup : (l.map Prod.fst).Nodup) :
    load_binary_index l = l := by
  unfold load_binary_index
  suffices h : ∀ acc : List (String × String),
      (∀ p ∈ l, p.1 ∉ acc.map Prod.fst) →
      l.foldl (fun acc p =>
          let h := pyStrip p.1
          let f := pyStrip p.2
          if h ≠ "" ∧ f ≠ "" then dictSet acc h f else acc) acc = acc ++ l by
    simpa using h [] (by simp)
  induction l with
  | nil => intro acc _; simp
  | cons q qs ih =>
    intro acc hdisj
    simp only [List.foldl_cons]
    have hcq := hclean q (by simp)
    simp only [List.map_cons, List.nodup_cons] at hnodup
    rw [if_pos ⟨by rw [hcq.1]; exact hcq.2.1, by rw [hcq.2.2.1]; exact hcq.2.2.2⟩]
    rw [hcq.1, hcq.2.2.1]
    have hknotin : q.1 ∉ acc.map Prod.fst := hdisj q (by simp)
    have hnone : ¬ (acc.any fun p => p.1 == q.1) = true := by
      intro hany
      rcases List.any_eq_true.mp hany with ⟨p, hp, hpk⟩
      exact hknotin (List.mem_map.mpr ⟨p, hp, by simpa using hpk⟩)
    have hset : dictSet acc q.1 q.2 = acc ++ [q] := by
      unfold dictSet
      rw [if_neg hnone]
    rw [hset]
    have hsub : ∀ p ∈ qs, p.1 ∉ (acc ++ [q]).map Prod.fst := by
      intro p hp
      simp only [List.map_append, List.map_cons, List.map_nil, List.mem_append,
        List.mem_singleton]
      rintro (hin | hin)
      · exact hdisj p (by simp [hp]) hin
      · exact hnodup.1 (hin ▸ List.mem_map.mpr ⟨p, hp, rfl⟩)
    rw [ih (fun p hp => hclean p (by simp [hp])) hnodup.2 (acc ++ [q]) hsub]
    simp

/-- `pop` only removes entries. -/
lemma dictRemove_subset (d : List (String × String)) (k : String) :
    ∀ p ∈ dictRemove d k, p ∈ d := fun p hp => (List.mem_filter.mp hp).1

/-- `pop` preserves key uniqueness. -/
lemma dictRemove_keys_nodup (d : List (String × String)) (k : String)
    (h : (d.map Prod.fst).Nodup) : ((dictRemove d k).map Prod.fst).Nodup :=
  List.Nodup.sublist ((List.filter_sublist _).map _) h

/-- The dedup flag `_save_text` returns is exactly membership of the content
hash in the consulted hash set. -/
lemma save_text_flag (env : TextEnv) (ds : TextDataset) (t : String) :
    (save_text env ds t).is_duplicate =
      decide (hash_text (norm_cr t) ∈ consulted_text_hashes env ds) := by
  unfold save_text consulted_text_hashes
  by_cases hmem : hash_text (norm_cr t) ∈
      (load_text_hashes ds.index
        (match ds.file with
          | none => (⟨[], env.create_mtime, env.create_size⟩ : TextFileState)
          | some f => f).items
        ((match ds.file with
          | none => (⟨[], env.create_mtime, env.create_size⟩ : TextFileState)
          | some f => f).mtime,
         (match ds.file with
          | none => (⟨[], env.create_mtime, env.create_size⟩ : TextFileState)
          | some f => f).size)).1
  · simp [hmem]
  · simp [hmem]

/-- The dedup flag `_save_binary` returns is exactly the indexed-existing-file
test on the prior state. -/
lemma save_binary_flag (ds : BinaryDataset) (name : String) (bin : List Nat)
    (ext : String) :
    (save_binary ds name bin ext).is_duplicate =
      binary_dup_hit ds (hash_binary bin) := by
  unfold save_binary binary_dup_hit
  cases hget : dictGet (load_binary_index ds.index) (hash_binary bin) with
  | none =>
    dsimp only
    rw [hget]
  | some fname =>
    dsimp only
    rw [hget]
    by_cases hmem : fname ∈ (ds.folder.getD []).map (fun p => p.1)
    · simp [hmem]
    · simp [hmem]

/-- A `_save_binary` call whose content hash indexes an existing file
returns that file with `dedup_hit=true` and leaves the dataset untouched. -/
lemma save_binary_dup (ds : BinaryDataset) (name : String) (bin : List Nat)
    (ext : String) (files : List (String × List Nat)) (fname : String)
    (hfolder : ds.folder = some files)
    (hget : dictGet (load_binary_index ds.index) (hash_binary bin) = some fname)
    (hmem : fname ∈ files.map (fun p => p.1)) :
    save_binary ds name bin ext = ⟨ds, fname, true⟩ := by
  unfold save_binary
  rw [hfolder]
  dsimp only
  rw [show (some files).getD [] = files from rfl] at *
  rw [hget]
  dsimp only
  rw [if_pos hmem]
  cases hds : ds with
  | mk f i =>
    rw [hds] at hfolder
    simp at hfolder
    simp [hfolder]

/-- After the miss path re-persists the index (sorted by key), looking the
content hash up in the reloaded index yields the just-written file name. -/
lemma step2_get (idx2 : List (String × String)) (bhash fnameN : String)
    (hclean : ∀ p ∈ idx2, CleanPair p) (hnodup : (idx2.map Prod.fst).Nodup)
    (hch : pyStrip bhash = bhash) (hbne : bhash ≠ "")
    (hfn : pyStrip fnameN = fnameN) (hfne : fnameN ≠ "") :
    dictGet (load_binary_index (sortPairs (dictSet idx2 bhash fnameN))) bhash =
      some fnameN := by
  have hcleanX : ∀ p ∈ dictSet idx2 bhash fnameN, CleanPair p := by
    intro p hp
    rcases mem_dictSet _ _ _ _ hp with rfl | ⟨hm, _⟩
    · exact ⟨hch, hbne, hfn, hfne⟩
    · exact hclean p hm
  have hnodupX := dictSet_keys_nodup _ bhash fnameN hnodup
  have hperm := sortPairs_perm (dictSet idx2 bhash fnameN)
  have hcleanS : ∀ p ∈ sortPairs (dictSet idx2 bhash fnameN), CleanPair p :=
    fun p hp => hcleanX p (hperm.mem_iff.mp hp)
  have hnodupS : ((sortPairs (dictSet idx2 bhash fnameN)).map Prod.fst).Nodup :=
    ((hperm.map Prod.fst).nodup_iff).mpr hnodupX
  rw [load_of_clean _ hcleanS hnodupS]
  exact dictGet_eq_some_of_mem_nodup _ _ _ hnodupS
    (hperm.mem_iff.mpr (mem_dictSet_self _ _ _))

/-- After any `_save_binary` call the directory exists, the returned path is
a file in it, and the reloaded index maps the content hash to that path. -/
lemma save_binary_inv (ds : BinaryDataset) (name : String) (bin : List Nat) (ext : String)
    (hmk : ∀ q : Int, pyStrip (mk_bin_name name q (strTake (hash_binary bin) 8) ext) =
        mk_bin_name name q (strTake (hash_binary bin) 8) ext ∧
        mk_bin_name name q (strTake (hash_binary bin) 8) ext ≠ "") :
    ∃ files, (save_binary ds name bin ext).ds.folder = some files ∧
      (save_binary ds name bin ext).saved_path ∈ files.map (fun p => p.1) ∧
      dictGet (load_binary_index (save_binary ds name bin ext).ds.index)
        (hash_binary bin) = some (save_binary ds name bin ext).saved_path := by
  have hclean0 := load_binary_index_clean ds.index
  unfold save_binary
  dsimp only
  cases hget : dictGet (load_binary_index ds.index) (hash_binary bin) with
  | some fname =>
    dsimp only
    by_cases hmem : fname ∈ (ds.folder.getD []).map (fun p => p.1)
    · rw [if_pos hmem]
      exact ⟨ds.folder.getD [], rfl, hmem, hget⟩
    · rw [if_neg hmem]
      refine ⟨_, rfl, by simp, ?_⟩
      exact step2_get _ _ _
        (fun p hp => hclean0.1 p (dictRemove_subset _ _ p hp))
        (dictRemove_keys_nodup _ _ hclean0.2)
        (pyStrip_hash_binary bin) (hash_binary_ne_empty bin)
        (hmk _).1 (hmk _).2
  | none =>
    dsimp only
    refine ⟨_, rfl, by simp, ?_⟩
    exact step2_get _ _ _ hclean0.1 hclean0.2
      (pyStrip_hash_binary bin) (hash_binary_ne_empty bin)
      (hmk _).1 (hmk _).2

/-- A strip-invariant string survives the leading `dropWhile` alone. -/
lemma strip_eq_gives_drop (s : String) (h : pyStrip s = s) :
    s.data.dropWhile py_isspace = s.data := by
  have hd := congrArg String.data h
  rw [pyStrip_eq_rdrop] at hd
  have hlen1 := (List.rdropWhile_prefix py_isspace (s.data.dropWhile py_isspace)).length_le
  have hlen2 := (List.dropWhile_suffix (l := s.data) py_isspace).length_le
  have hlen3 : (List.rdropWhile py_isspace (s.data.dropWhile py_isspace)).length =
      s.data.length := by
    rw [show (List.rdropWhile py_isspace (s.data.dropWhile py_isspace)) = s.data from hd]
  exact (List.dropWhile_suffix py_isspace).sublist.eq_of_length (by omega)

/-- A strip-invariant string does not start with whitespace. -/
lemma head_no_space_of_strip_eq (s : String) (h : pyStrip s = s) :
    ∀ c ∈ s.data.head?, py_isspace c = false := by
  intro c hc
  have hdrop := strip_eq_gives_drop s h
  rw [List.dropWhile_eq_self_iff] at hdrop
  cases hd : s.data with
  | nil => rw [hd] at hc; simp at hc
  | cons x xs =>
    rw [hd] at hc
    simp only [List.head?_cons, Option.mem_def, Option.some_inj] at hc
    have h0 : 0 < s.data.length := by rw [hd]; simp
    have hx := hdrop h0
    have hget : s.data.get ⟨0, h0⟩ = c := by
      rw [← hc]
      simp [hd]
    rw [hget] at hx
    simpa using hx

/-- The characters of a generated binary file name. -/
lemma mk_bin_name_data (name : String) (q : Int) (h8 ext : String) :
    (mk_bin_name name q h8 ext).data =
      name.data ++ '_' :: ((intToStr q).data ++ '_' :: (h8.data ++ ext.data)) := by
  unfold mk_bin_name
  simp only [String.data_append]
  simp [String.data]

/-- The generated name regrouped around its extension suffix. -/
lemma mk_bin_name_data2 (name : String) (q : Int) (h8 ext : String) :
    (mk_bin_name name q h8 ext).data =
      (name.data ++ '_' :: ((intToStr q).data ++ '_' :: h8.data)) ++ ext.data := by
  rw [mk_bin_name_data]
  simp

/-- A binary file name generated from a stripped dataset name, hex hash
characters and a default extension is strip-invariant and non-empty. -/
lemma mk_bin_name_clean (name : String) (hname : pyStrip name = name)
    (q : Int) (h8 : String) (hh8 : ∀ c ∈ h8.data, py_isspace c = false)
    (ext : String) (hext : ∀ c ∈ ext.data.getLast?, py_isspace c = false)
    (hextne : ext.data ≠ []) :
    pyStrip (mk_bin_name name q h8 ext) = mk_bin_name name q h8 ext ∧
      mk_bin_name name q h8 ext ≠ "" := by
  constructor
  · have hres : pyStrip (String.mk ((mk_bin_name name q h8 ext).data)) =
        String.mk ((mk_bin_name name q h8 ext).data) := by
      apply pyStrip_of_ends
      · rw [mk_bin_name_data]
        intro c hc
        cases hn : name.data with
        | nil =>
          rw [hn] at hc
          simp only [List.nil_append, List.head?_cons, Option.mem_def,
            Option.some_inj] at hc
          rw [← hc]
          decide
        | cons y ys =>
          rw [hn] at hc
          simp only [List.cons_append, List.head?_cons, Option.mem_def,
            Option.some_inj] at hc
          rw [← hc]
          have hh := head_no_space_of_strip_eq name hname
          rw [hn] at hh
          exact hh y (by simp)
      · rw [mk_bin_name_data2]
        intro c hc
        rw [List.getLast?_append] at hc
        cases hl : ext.data.getLast? with
        | none =>
          exact absurd (List.getLast?_eq_none_iff.mp hl) hextne
        | some x =>
          rw [hl] at hc
          simp only [Option.or, Option.mem_def, Option.some_inj] at hc
          rw [← hc]
          exact hext x (by rw [hl]; rfl)
    exact hres
  · intro he
    have := congrArg String.data he
    rw [mk_bin_name_data] at this
    rcases List.append_eq_nil.mp this with ⟨_, h2⟩
    simp at h2

/-- A validated binary resource carries non-empty bytes. -/
lemma validate_ok_binary (d : DataResource) (hv : validate_for_save d = .ok ())
    (hb : d.data_type.is_binary = true) : d.binary.getD [] ≠ [] := by
  unfold validate_for_save at hv
  by_cases h1 : d.data_type.is_text ∧ d.text.getD "" = ""
  · rw [if_pos h1] at hv; exact absurd hv (by simp)
  · rw [if_neg h1] at hv
    by_cases h2 : d.data_type.is_binary ∧ d.binary.getD [] = []
    · rw [if_pos h2] at hv; exact absurd hv (by simp)
    · intro he
      exact h2 ⟨by simp [hb], he⟩

/-- `save_data` on a validated text resource delegates to `_save_text`. -/
lemma save_data_text (env : TextEnv) (st : LocalState) (d : DataResource)
    (hv : validate_for_save d = .ok ()) (ht : d.data_type.is_text = true) :
    save_data env st d = .ok
      (⟨(save_text env st.textDs (d.text.getD "")).ds, st.binDs⟩,
       { d with saved_text := some (save_text env st.textDs (d.text.getD "")).saved_text,
                is_duplicate := (save_text env st.textDs (d.text.getD "")).is_duplicate }) := by
  unfold save_data
  rw [hv]
  show (if d.data_type.is_text then _ else _ : Except String _) = _
  rw [if_pos ht]

/-- `save_data` on a validated binary resource delegates to `_save_binary`. -/
lemma save_data_binary (env : TextEnv) (st : LocalState) (d : DataResource)
    (bin : List Nat)
    (hv : validate_for_save d = .ok ()) (hb : d.data_type.is_binary = true)
    (hbin : d.binary = some bin) :
    save_data env st d = .ok
      (⟨st.textDs, (save_binary st.binDs d.name bin d.data_type.get_default_ext).ds⟩,
       { d with
         saved_path := some (save_binary st.binDs d.name bin d.data_type.get_default_ext).saved_path,
         is_duplicate := (save_binary st.binDs d.name bin d.data_type.get_default_ext).is_duplicate }) := by
  have ht : d.data_type.is_text = false := by
    cases hdt : d.data_type <;> simp [DataType.is_text, DataType.is_binary] at hb ⊢ <;>
      (try rfl) <;> (rw [hdt] at hb; simp [DataType.is_binary] at hb)
  unfold save_data
  rw [hv]
  show (if d.data_type.is_text then _ else _ : Except String _) = _
  rw [if_neg (by simp [ht])]
  rw [hbin]


/-- Characters of a prefix slice come from the original string. -/
lemma strTake_chars (s : String) (n : Nat) :
    ∀ c ∈ (strTake s n).data, c ∈ s.data :=
  fun c hc => List.mem_of_mem_take hc

/-- C1 (amended): saving the same payload twice in succession into the same
dataset — the same binary bytes, or texts equal after the store's
CR-to-LF normalization — always yields `is_duplicate=true` on the second
call, and the second call leaves the local dataset state (item count,
contents, and index) entirely unchanged; the first call's `is_duplicate`
flag equals whether the payload was already present in the dataset — in
particular it is `false` whenever the payload was not already stored.
Dataset names are registry-normalized (strip-invariant). -/
theorem C1_idempotence_amended (env1 env2 : TextEnv) (st : LocalState) (d d2 : DataResource)
    (hv1 : validate_for_save d = .ok ()) (hv2 : validate_for_save d2 = .ok ())
    (htype : d2.data_type = d.data_type) (hname2 : d2.name = d.name)
    (hnameclean : pyStrip d.name = d.name)
    (hpayload : if d.data_type.is_text then
        norm_cr (d2.text.getD "") = norm_cr (d.text.getD "")
      else d2.binary = d.binary) :
    ∃ st1 r1 st2 r2,
      save_data env1 st d = .ok (st1, r1) ∧
      save_data env2 st1 d2 = .ok (st2, r2) ∧
      r1.is_duplicate = payload_present env1 st d ∧
      r2.is_duplicate = true ∧ st2 = st1 := by
  by_cases htext : d.data_type.is_text = true
  · have ht2 : d2.data_type.is_text = true := by rw [htype]; exact htext
    rw [if_pos htext] at hpayload
    obtain ⟨f, hs, hf, hi, hm⟩ := save_text_inv env1 st.textDs (d.text.getD "")
    have hhash : hash_text (norm_cr (d2.text.getD "")) =
        hash_text (norm_cr (d.text.getD "")) := congrArg hash_text hpayload
    have hdup := save_text_dup env2 _ f hs (d2.text.getD "") hf hi (hhash ▸ hm)
    refine ⟨_, _, _, _, save_data_text env1 st d hv1 htext,
      save_data_text env2 _ d2 hv2 ht2, ?_, ?_, ?_⟩
    · simp only [payload_present, if_pos htext]
      exact save_text_flag env1 st.textDs (d.text.getD "")
    · simp [hdup]
    · simp [hdup]
  · have hbinb : d.data_type.is_binary = true := by
      cases hdt : d.data_type
      · exact absurd (by rw [hdt]; rfl) htext
      · rfl
      · rfl
      · rfl
    have hb2b : d2.data_type.is_binary = true := by rw [htype]; exact hbinb
    rw [if_neg htext] at hpayload
    have hne := validate_ok_binary d hv1 hbinb
    cases hbv : d.binary with
    | none => rw [hbv] at hne; simp at hne
    | some bin =>
      have hb2 : d2.binary = some bin := by rw [hpayload, hbv]
      have hext : ∀ c ∈ (d.data_type.get_default_ext).data.getLast?,
          py_isspace c = false := by
        cases hdt : d.data_type
        · exact absurd (by rw [hdt]; rfl) htext
        · intro c hc; simp [DataType.get_default_ext] at hc; rw [← hc]; decide
        · intro c hc; simp [DataType.get_default_ext] at hc; rw [← hc]; decide
        · intro c hc; simp [DataType.get_default_ext] at hc; rw [← hc]; decide
      have hextne : (d.data_type.get_default_ext).data ≠ [] := by
        cases hdt : d.data_type
        · exact absurd (by rw [hdt]; rfl) htext
        · simp [DataType.get_default_ext]
        · simp [DataType.get_default_ext]
        · simp [DataType.get_default_ext]
      have hmk : ∀ q : Int,
          pyStrip (mk_bin_name d.name q (strTake (hash_binary bin) 8)
            (d.data_type.get_default_ext)) =
          mk_bin_name d.name q (strTake (hash_binary bin) 8)
            (d.data_type.get_default_ext) ∧
          mk_bin_name d.name q (strTake (hash_binary bin) 8)
            (d.data_type.get_default_ext) ≠ "" := by
        intro q
        exact mk_bin_name_clean d.name hnameclean q _
          (fun c hc => hexOfBytes_chars _ (sha256_bytes_lt bin) c (strTake_chars _ _ c hc))
          _ hext hextne
      obtain ⟨files, hfo, hfmem, hfget⟩ :=
        save_binary_inv st.binDs d.name bin (d.data_type.get_default_ext) hmk
      have hdup := save_binary_dup
        (save_binary st.binDs d.name bin (d.data_type.get_default_ext)).ds
        d2.name bin (d2.data_type.get_default_ext) files
        (save_binary st.binDs d.name bin (d.data_type.get_default_ext)).saved_path
        hfo hfget hfmem
      refine ⟨_, _, _, _, save_data_binary env1 st d bin hv1 hbinb hbv,
        save_data_binary env2 _ d2 bin hv2 hb2b hb2, ?_, ?_, ?_⟩
      · simp only [payload_present, if_neg htext]
        rw [save_binary_flag, hbv]
        rfl
      · simp [hdup]
      · simp [hdup]

/-- C7: when the signature stored in the text index differs from the data
file's current `(mtime_ns, size)` signature, or the index is missing or
unparsable, the next save rebuilds the hash set by hashing every line
currently in the data file and deduplicates against exactly those hashes —
so duplicates among out-of-band appended lines are detected. -/
theorem C7_index_self_heal (env : TextEnv) (ds : TextDataset) (t : String)
    (items : List String) (m sz : Int)
    (hfile : ds.file = some ⟨items, m, sz⟩)
    (hmis : match ds.index with
      | .stored dd => dd.source_mtime ≠ m ∨ dd.source_size ≠ sz
      | _ => True) :
    ((save_text env ds t).is_duplicate = true ↔
      hash_text (norm_cr t) ∈ items.map hash_text) := by
  unfold save_text
  rw [hfile]
  dsimp only
  have hload : load_text_hashes ds.index items (m, sz) =
      (listSet (items.map hash_text),
       .stored ⟨sortStrings (listSet (items.map hash_text)), m, sz⟩) := by
    unfold load_text_hashes
    cases hidx : ds.index with
    | absent => rfl
    | corrupt => rfl
    | stored dd =>
      rw [hidx] at hmis
      have hmis2 : dd.source_mtime ≠ m ∨ dd.source_size ≠ sz := hmis
      dsimp only
      rw [if_neg]
      intro hcon
      rcases hmis2 with h | h
      · exact h hcon.1
      · exact h hcon.2
  rw [hload]
  by_cases hmem : hash_text (norm_cr t) ∈ listSet (items.map hash_text)
  · rw [if_pos hmem]
    simpa using (mem_listSet _ _).mp hmem
  · rw [if_neg hmem]
    simp only [Bool.false_eq_true, false_iff]
    intro hcon
    exact hmem ((mem_listSet _ _).mpr hcon)

/-- C7 witness: a dataset with an absent index detects its stored line as a
duplicate. -/
theorem C7_witness :
    ((save_text ⟨0, 2, 7, 15⟩ ⟨some ⟨["x"], 5, 10⟩, IndexState.absent⟩
        "x").is_duplicate = true ↔
      hash_text (norm_cr "x") ∈ (["x"].map hash_text)) :=
  C7_index_self_heal ⟨0, 2, 7, 15⟩ ⟨some ⟨["x"], 5, 10⟩, IndexState.absent⟩ "x" ["x"] 5 10 rfl trivial

/-- C2 (amended): the text stored by `_save_text` is the input with every
carriage return replaced by a line feed (`replace("\r", "\n")` — CRLF
becomes LF LF, not LF), and the dedup decision is exactly membership of the
SHA-256 hash of the UTF-8 encoding of that normalized text; hence saving
two texts that agree after this CR normalization makes the second save a
duplicate. -/
theorem C2_content_hash_amended :
    (∀ (env : TextEnv) (ds : TextDataset) (t : String),
      (save_text env ds t).saved_text = norm_cr t ∧
      (save_text env ds t).is_duplicate =
        decide (hash_text (norm_cr t) ∈ consulted_text_hashes env ds)) ∧
    (∀ (env1 env2 : TextEnv) (ds : TextDataset) (t1 t2 : String),
      norm_cr t1 = norm_cr t2 →
      (save_text env2 (save_text env1 ds t1).ds t2).is_duplicate = true) := by
  constructor
  · intro env ds t
    refine ⟨?_, save_text_flag env ds t⟩
    unfold save_text
    by_cases hmem : hash_text (norm_cr t) ∈
        (load_text_hashes ds.index
          (match ds.file with
            | none => (⟨[], env.create_mtime, env.create_size⟩ : TextFileState)
            | some f => f).items
          ((match ds.file with
            | none => (⟨[], env.create_mtime, env.create_size⟩ : TextFileState)
            | some f => f).mtime,
           (match ds.file with
            | none => (⟨[], env.create_mtime, env.create_size⟩ : TextFileState)
            | some f => f).size)).1
    · simp [hmem]
    · simp [hmem]
  · intro env1 env2 ds t1 t2 heq
    obtain ⟨f, hs, hf, hi, hm⟩ := save_text_inv env1 ds t1
    have hdup := save_text_dup env2 _ f hs t2 hf hi (by rw [← heq]; exact hm)
    rw [hdup]

/-- C2 witness: the stored text is the CR-normalized input, and a text saved
with CR line endings then with LF line endings is a duplicate. -/
theorem C2_witness :
    (save_text ⟨0, 2, 1, 15⟩ ⟨none, IndexState.absent⟩ "a").saved_text = norm_cr "a" ∧
    (save_text ⟨2, 16, 3, 15⟩
      (save_text ⟨0, 2, 1, 15⟩ ⟨none, IndexState.absent⟩ "x\ry").ds
      "x\ny").is_duplicate = true :=
  ⟨(C2_content_hash_amended.1 ⟨0, 2, 1, 15⟩ ⟨none, IndexState.absent⟩ "a").1,
   C2_content_hash_amended.2 ⟨0, 2, 1, 15⟩ ⟨2, 16, 3, 15⟩ ⟨none, IndexState.absent⟩ "x\ry" "x\ny" (by decide)⟩

/-- C2 counterexample: saving `"a\r\nb"` and then `"a\nb"` — the same
string after CRLF-to-LF normalization — into a fresh dataset yields
`is_duplicate=false` on the second save, because the code hashes the text
with every CR replaced by LF (`"a\n\nb"`), not with CRLF collapsed to LF
(`"a\nb"`); the two SHA-256 hashes differ. -/
theorem C2_counterexample :
    (save_text ⟨2, 22, 3, 30⟩
        (save_text ⟨0, 2, 1, 20⟩ ⟨none, IndexState.absent⟩ "a\r\nb").ds
        "a\nb").is_duplicate = false ∧
    hash_text (norm_cr "a\r\nb") ≠ hash_text (spec_norm_crlf "a\r\nb") ∧
    spec_norm_crlf "a\r\nb" = "a\nb" :=
  ⟨by decide, by decide, by decide⟩

/-- C1 counterexample: on a dataset that already contains the text `"a"`
(state produced by a previous save), the first of two successive saves of
`"a"` returns `is_duplicate=true`, not `false` as the claim states. -/
theorem C1_counterexample :
    (match save_data ⟨2, 16, 3, 15⟩
        ⟨(save_text ⟨0, 2, 1, 15⟩ ⟨none, IndexState.absent⟩ "a").ds, ⟨none, []⟩⟩
        ⟨DataType.text, "jokes", some "a", none, none, none, false⟩ with
      | .ok (_, r) => r.is_duplicate
      | .error _ => false) = true := by decide

/-- C1 witness: saving the text `"why"` twice into a fresh dataset. -/
theorem C1_witness :
    ∃ st1 r1 st2 r2,
      save_data ⟨0, 2, 1, 15⟩ ⟨⟨none, IndexState.absent⟩, ⟨none, []⟩⟩
        ⟨DataType.text, "jokes", some "why", none, none, none, false⟩ = .ok (st1, r1) ∧
      save_data ⟨2, 16, 3, 15⟩ st1
        ⟨DataType.text, "jokes", some "why", none, none, none, false⟩ = .ok (st2, r2) ∧
      r1.is_duplicate = payload_present ⟨0, 2, 1, 15⟩ ⟨⟨none, IndexState.absent⟩, ⟨none, []⟩⟩
        ⟨DataType.text, "jokes", some "why", none, none, none, false⟩ ∧
      r2.is_duplicate = true ∧ st2 = st1 :=
  C1_idempotence_amended ⟨0, 2, 1, 15⟩ ⟨2, 16, 3, 15⟩ ⟨⟨none, IndexState.absent⟩, ⟨none, []⟩⟩
    ⟨DataType.text, "jokes", some "why", none, none, none, false⟩
    ⟨DataType.text, "jokes", some "why", none, none, none, false⟩
    rfl rfl rfl rfl (by decide) (by decide)


/-! ## C3: the fetch fallback -/


/-- `get_random_data` on a present, non-empty dataset returns the sampled
item as a resource. -/
lemma get_random_data_some (st : LocalState) (dt : DataType) (name : String)
    (pick : Nat) (items : List String) (hitems : dataset_items st dt = some items)
    (hne : items ≠ []) :
    get_random_data st dt name pick =
      .ok (mk_sample dt name (items.getD (pick % items.length) "")) := by
  cases dt with
  | text =>
    cases hf : st.textDs.file with
    | none => simp [dataset_items, DataType.is_text, hf] at hitems
    | some f =>
      have hfi : f.items = items := by
        simpa [dataset_items, DataType.is_text, hf] using hitems
      subst hfi
      simp [get_random_data, get_text, hf, hne, mk_sample, DataType.is_text,
        bind, Except.bind]
  | image =>
    cases hf : st.binDs.folder with
    | none => simp [dataset_items, DataType.is_text, hf] at hitems
    | some files =>
      have hfi : list_binary_files files = items := by
        simpa [dataset_items, DataType.is_text, hf] using hitems
      subst hfi
      simp [get_random_data, get_binary, hf, hne, mk_sample, DataType.is_text,
        DataType.is_binary, bind, Except.bind]
  | video =>
    cases hf : st.binDs.folder with
    | none => simp [dataset_items, DataType.is_text, hf] at hitems
    | some files =>
      have hfi : list_binary_files files = items := by
        simpa [dataset_items, DataType.is_text, hf] using hitems
      subst hfi
      simp [get_random_data, get_binary, hf, hne, mk_sample, DataType.is_text,
        DataType.is_binary, bind, Except.bind]
  | audio =>
    cases hf : st.binDs.folder with
    | none => simp [dataset_items, DataType.is_text, hf] at hitems
    | some files =>
      have hfi : list_binary_files files = items := by
        simpa [dataset_items, DataType.is_text, hf] using hitems
      subst hfi
      simp [get_random_data, get_binary, hf, hne, mk_sample, DataType.is_text,
        DataType.is_binary, bind, Except.bind]

/-- `get_random_data` on an absent or empty dataset raises. -/
lemma get_random_data_err (st : LocalState) (dt : DataType) (name : String)
    (pick : Nat)
    (habs : dataset_items st dt = none ∨ dataset_items st dt = some []) :
    ∃ e, get_random_data st dt name pick = .error e := by
  cases dt with
  | text =>
    cases hf : st.textDs.file with
    | none =>
      exact ⟨"text dataset not found", by simp [get_random_data, get_text,
        hf, DataType.is_text, bind, Except.bind]⟩
    | some f =>
      cases habs with
      | inl h => exact absurd h (by simp [dataset_items, DataType.is_text, hf])
      | inr h =>
        have hfi : f.items = [] := by
          simpa [dataset_items, DataType.is_text, hf] using h
        exact ⟨"text dataset empty or invalid", by simp [get_random_data,
          get_text, hf, hfi, DataType.is_text, bind, Except.bind]⟩
  | image =>
    cases hf : st.binDs.folder with
    | none =>
      exact ⟨"folder not found", by simp [get_random_data, get_binary, hf,
        DataType.is_text, DataType.is_binary, bind, Except.bind]⟩
    | some files =>
      cases habs with
      | inl h => exact absurd h (by simp [dataset_items, DataType.is_text, hf])
      | inr h =>
        have hfi : list_binary_files files = [] := by
          simpa [dataset_items, DataType.is_text, hf] using h
        exact ⟨"folder empty", by simp [get_random_data, get_binary, hf,
          hfi, DataType.is_text, DataType.is_binary, bind, Except.bind]⟩
  | video =>
    cases hf : st.binDs.folder with
    | none =>
      exact ⟨"folder not found", by simp [get_random_data, get_binary, hf,
        DataType.is_text, DataType.is_binary, bind, Except.bind]⟩
    | some files =>
      cases habs with
      | inl h => exact absurd h (by simp [dataset_items, DataType.is_text, hf])
      | inr h =>
        have hfi : list_binary_files files = [] := by
          simpa [dataset_items, DataType.is_text, hf] using h
        exact ⟨"folder empty", by simp [get_random_data, get_binary, hf,
          hfi, DataType.is_text, DataType.is_binary, bind, Except.bind]⟩
  | audio =>
    cases hf : st.binDs.folder with
    | none =>
      exact ⟨"folder not found", by simp [get_random_data, get_binary, hf,
        DataType.is_text, DataType.is_binary, bind, Except.bind]⟩
    | some files =>
      cases habs with
      | inl h => exact absurd h (by simp [dataset_items, DataType.is_text, hf])
      | inr h =>
        have hfi : list_binary_files files = [] := by
          simpa [dataset_items, DataType.is_text, hf] using h
        exact ⟨"folder empty", by simp [get_random_data, get_binary, hf,
          hfi, DataType.is_text, DataType.is_binary, bind, Except.bind]⟩

/-- C3: when the remote result carries a network error, `fetch` with local
fallback enabled returns a sampled item of the entry's local dataset when
that dataset exists and is non-empty, returns `none` when it is absent or
empty, and in either case leaves the local state unchanged; the function is
total (every exception of both paths is caught), so no exception reaches
the caller. -/
theorem C3_fetch_fallback (env : TextEnv) (pick : Nat) (st : LocalState)
    (dt : DataType) (name : String) (result : RequestResult)
    (herr : result.error ≠ none) :
    (∀ items, dataset_items st dt = some items → items ≠ [] →
      DataService.fetch env pick st dt name result true =
        (some (mk_sample dt name (items.getD (pick % items.length) "")), st)) ∧
    ((dataset_items st dt = none ∨ dataset_items st dt = some []) →
      DataService.fetch env pick st dt name result true = (none, st)) := by
  have hok : ¬ (result.ok = true) := by
    simp only [RequestResult.ok]
    simpa using herr
  have hfe : DataService.fetch env pick st dt name result true =
      (match get_random_data st dt name pick with
       | .ok d => (some d, st)
       | .error _ => (none, st)) := by
    unfold DataService.fetch
    dsimp only
    rw [if_pos hok]
    rfl
  constructor
  · intro items hitems hne
    rw [hfe, get_random_data_some st dt name pick items hitems hne]
  · intro habs
    obtain ⟨e, he⟩ := get_random_data_err st dt name pick habs
    rw [hfe, he]

/-- C3 witness: with a network error and a one-item text cache, `fetch`
falls back to the cached item; with an empty cache it returns `none`. -/
theorem C3_witness :
    DataService.fetch ⟨0, 0, 1, 1⟩ 0
        ⟨⟨some ⟨["cached"], 5, 9⟩, .absent⟩, ⟨none, []⟩⟩ .text "poetry"
        { error := some "ConnectError" } true =
      (some (mk_sample .text "poetry" "cached"),
       ⟨⟨some ⟨["cached"], 5, 9⟩, .absent⟩, ⟨none, []⟩⟩) ∧
    DataService.fetch ⟨0, 0, 1, 1⟩ 0
        ⟨⟨none, .absent⟩, ⟨none, []⟩⟩ .text "poetry"
        { error := some "ConnectError" } true =
      (none, ⟨⟨none, .absent⟩, ⟨none, []⟩⟩) := by
  constructor
  · exact (C3_fetch_fallback ⟨0, 0, 1, 1⟩ 0
      ⟨⟨some ⟨["cached"], 5, 9⟩, .absent⟩, ⟨none, []⟩⟩ .text "poetry"
      { error := some "ConnectError" } (by simp)).1 ["cached"] rfl (by simp)
  · exact (C3_fetch_fallback ⟨0, 0, 1, 1⟩ 0
      ⟨⟨none, .absent⟩, ⟨none, []⟩⟩ .text "poetry"
      { error := some "ConnectError" } (by simp)).2 (Or.inl rfl)


/-! ## C8: the wallpaper scenario -/


/-- C8: starting from an empty binary dataset, saving the same bytes twice
under the name `wallpaper` (extension `.jpg`) leaves exactly one file,
named `wallpaper_0_` plus the first 8 hex digits of the content hash plus
`.jpg`; the index maps the full content hash to that file name, and the
second save returns the existing path with `is_duplicate=true` and changes
nothing. -/
theorem C8_wallpaper_scenario (bin : List Nat) :
    (save_binary ⟨none, []⟩ "wallpaper" bin ".jpg").saved_path =
      "wallpaper_0_" ++ strTake (hash_binary bin) 8 ++ ".jpg" ∧
    (save_binary ⟨none, []⟩ "wallpaper" bin ".jpg").is_duplicate = false ∧
    (save_binary ⟨none, []⟩ "wallpaper" bin ".jpg").ds.folder =
      some [("wallpaper_0_" ++ strTake (hash_binary bin) 8 ++ ".jpg", bin)] ∧
    dictGet (load_binary_index (save_binary ⟨none, []⟩ "wallpaper" bin ".jpg").ds.index)
        (hash_binary bin) =
      some ("wallpaper_0_" ++ strTake (hash_binary bin) 8 ++ ".jpg") ∧
    save_binary (save_binary ⟨none, []⟩ "wallpaper" bin ".jpg").ds "wallpaper" bin ".jpg" =
      ⟨(save_binary ⟨none, []⟩ "wallpaper" bin ".jpg").ds,
       "wallpaper_0_" ++ strTake (hash_binary bin) 8 ++ ".jpg", true⟩ := by
  have hname : mk_bin_name "wallpaper" 0 (strTake (hash_binary bin) 8) ".jpg" =
      "wallpaper_0_" ++ strTake (hash_binary bin) 8 ++ ".jpg" := by
    unfold mk_bin_name
    rfl
  have h1 : save_binary ⟨none, []⟩ "wallpaper" bin ".jpg" =
      ⟨⟨some [(mk_bin_name "wallpaper" 0 (strTake (hash_binary bin) 8) ".jpg", bin)],
        [(hash_binary bin, mk_bin_name "wallpaper" 0 (strTake (hash_binary bin) 8) ".jpg")]⟩,
       mk_bin_name "wallpaper" 0 (strTake (hash_binary bin) 8) ".jpg", false⟩ := rfl
  have hclean : pyStrip (mk_bin_name "wallpaper" 0 (strTake (hash_binary bin) 8) ".jpg") =
      mk_bin_name "wallpaper" 0 (strTake (hash_binary bin) 8) ".jpg" ∧
      mk_bin_name "wallpaper" 0 (strTake (hash_binary bin) 8) ".jpg" ≠ "" := by
    apply mk_bin_name_clean "wallpaper" (by decide) 0 _ _ ".jpg" (by decide) (by decide)
    exact fun c hc =>
      hexOfBytes_chars _ (sha256_bytes_lt bin) c (strTake_chars _ _ c hc)
  have hload : load_binary_index
      [(hash_binary bin, mk_bin_name "wallpaper" 0 (strTake (hash_binary bin) 8) ".jpg")] =
      [(hash_binary bin, mk_bin_name "wallpaper" 0 (strTake (hash_binary bin) 8) ".jpg")] := by
    apply load_of_clean
    · intro p hp
      simp only [List.mem_singleton] at hp
      subst hp
      exact ⟨pyStrip_hash_binary bin, hash_binary_ne_empty bin, hclean.1, hclean.2⟩
    · simp
  have hget : dictGet
      [(hash_binary bin, mk_bin_name "wallpaper" 0 (strTake (hash_binary bin) 8) ".jpg")]
      (hash_binary bin) =
      some (mk_bin_name "wallpaper" 0 (strTake (hash_binary bin) 8) ".jpg") := by
    simp [dictGet]
  have h2 := save_binary_dup
    ⟨some [(mk_bin_name "wallpaper" 0 (strTake (hash_binary bin) 8) ".jpg", bin)],
     [(hash_binary bin, mk_bin_name "wallpaper" 0 (strTake (hash_binary bin) 8) ".jpg")]⟩
    "wallpaper" bin ".jpg"
    [(mk_bin_name "wallpaper" 0 (strTake (hash_binary bin) 8) ".jpg", bin)]
    (mk_bin_name "wallpaper" 0 (strTake (hash_binary bin) 8) ".jpg")
    rfl (by rw [hload]; exact hget) (by simp)
  rw [h1]
  refine ⟨hname, rfl, by rw [hname], by rw [hload, hget, hname], ?_⟩
  dsimp only
  rw [h2, hname]


/-! ## C10: set_entries_valid -/

/-- `frameS` relates names. -/
lemma frameS_name {names : List String} {e e' : APIEntry}
    (h : frameS names e e') : e'.name = e.name := by
  have h2 := congrArg APIEntry.name h.1
  exact h2

/-- `frameS` is reflexive. -/
lemma frameS_refl (names : List String) (l : List APIEntry) :
    List.Forall₂ (frameS names) l l :=
  List.forall₂_same.mpr (fun _ _ => ⟨rfl, fun _ => rfl⟩)

/-- `frameS` composes. -/
lemma frameS_comp {names : List String} {l1 l2 l3 : List APIEntry}
    (h12 : List.Forall₂ (frameS names) l1 l2)
    (h23 : List.Forall₂ (frameS names) l2 l3) :
    List.Forall₂ (frameS names) l1 l3 := by
  induction h12 generalizing l3 with
  | nil => cases h23; exact .nil
  | cons hab hrest ih =>
    cases h23 with
    | cons hbc hrest2 =>
      refine .cons ⟨hbc.1.trans hab.1, fun hmem => ?_⟩ (ih hrest2)
      have hb := hab.2 hmem
      have hc := hbc.2 (by rw [frameS_name hab]; exact hmem)
      rw [hc, hb]

/-- `update_first_valid` satisfies the frame relation. -/
lemma update_first_frame (names : List String) (n : String) (hn : n ∈ names)
    (v : Bool) (l : List APIEntry) :
    List.Forall₂ (frameS names) l (update_first_valid l n v) := by
  induction l with
  | nil => exact .nil
  | cons e es ih =>
    by_cases he : e.name = n
    · unfold update_first_valid
      rw [if_pos he]
      exact .cons ⟨rfl, fun hne => absurd (he ▸ hn) hne⟩ (frameS_refl names es)
    · unfold update_first_valid
      rw [if_neg he]
      exact .cons ⟨rfl, fun _ => rfl⟩ ih

/-- `update_last_valid` satisfies the frame relation. -/
lemma update_last_frame (names : List String) (n : String) (hn : n ∈ names)
    (v : Bool) (l : List APIEntry) :
    List.Forall₂ (frameS names) l (update_last_valid l n v) := by
  unfold update_last_valid
  have h := update_first_frame names n hn v l.reverse
  have h2 : List.Forall₂ (frameS names) l.reverse
      ((update_first_valid l.reverse n v).reverse.reverse) := by
    simpa using h
  have h3 := List.forall₂_reverse_iff.mp
    (by simpa using h2 : List.Forall₂ (frameS names) l.reverse.reverse.reverse
      ((update_first_valid l.reverse n v).reverse.reverse))
  simpa using h3

/-- One `set_entries_valid` iteration satisfies the frame relation. -/
lemma sev_step_frame (v : Bool) (names : List String) (n : String)
    (hn : n ∈ names) (acc : SEVAcc) :
    List.Forall₂ (frameS names) acc.st.entries (sev_step v acc n).st.entries ∧
    List.Forall₂ (frameS names) acc.st.pool (sev_step v acc n).st.pool := by
  unfold sev_step
  cases hg : get_entry acc.st.entries n with
  | none => exact ⟨frameS_refl _ _, frameS_refl _ _⟩
  | some e =>
    dsimp only
    by_cases hv : e.valid ≠ v
    · rw [if_pos hv]
      exact ⟨update_first_frame names n hn v _, update_last_frame names n hn v _⟩
    · rw [if_neg hv]
      exact ⟨frameS_refl _ _, frameS_refl _ _⟩

/-- The `set_entries_valid` loop satisfies the frame relation. -/
lemma sev_fold_frame (v : Bool) (names : List String) :
    ∀ (sub : List String) (acc : SEVAcc), (∀ n ∈ sub, n ∈ names) →
      List.Forall₂ (frameS names) acc.st.entries
        ((sub.foldl (sev_step v) acc).st.entries) ∧
      List.Forall₂ (frameS names) acc.st.pool
        ((sub.foldl (sev_step v) acc).st.pool) := by
  intro sub
  induction sub with
  | nil => exact fun acc _ => ⟨frameS_refl _ _, frameS_refl _ _⟩
  | cons n rest ih =>
    intro acc hsub
    have h1 := sev_step_frame v names n (hsub n (by simp)) acc
    have h2 := ih (sev_step v acc n) (fun m hm => hsub m (by simp [hm]))
    exact ⟨frameS_comp h1.1 h2.1, frameS_comp h1.2 h2.2⟩

/-- The frame relation preserves the name list. -/
lemma frame_names_eq {names : List String} {l1 l2 : List APIEntry}
    (h : List.Forall₂ (frameS names) l1 l2) :
    l2.map APIEntry.name = l1.map APIEntry.name := by
  induction h with
  | nil => rfl
  | cons hab _ ih => simp [frameS_name hab, ih]

/-- Whether `get_entry` misses depends only on the name list. -/
lemma get_entry_none_iff_names (l1 l2 : List APIEntry)
    (h : l2.map APIEntry.name = l1.map APIEntry.name) (n : String) :
    (get_entry l2 n = none) ↔ (get_entry l1 n = none) := by
  have key : ∀ l : List APIEntry,
      (get_entry l n = none) ↔ ∀ nm ∈ l.map APIEntry.name, ¬(nm == n) := by
    intro l
    simp only [get_entry, List.find?_eq_none, List.mem_map,
      forall_exists_index, and_imp]
    constructor
    · intro hall nm e he hnm
      rw [← hnm]
      exact hall e he
    · intro hall e he
      exact hall e.name e he rfl
  rw [key, key, h]

/-- The loop appends to `failed` exactly the names that miss the registry. -/
lemma sev_fold_failed (v : Bool) (mgrEntries : List APIEntry) :
    ∀ (sub : List String) (acc : SEVAcc),
      acc.st.entries.map APIEntry.name = mgrEntries.map APIEntry.name →
      (sub.foldl (sev_step v) acc).failed =
        acc.failed ++ sub.filter (fun n => (get_entry mgrEntries n).isNone) := by
  intro sub
  induction sub with
  | nil => intro acc _; simp
  | cons n rest ih =>
    intro acc hnames
    have hstep : (sev_step v acc n).st.entries.map APIEntry.name =
        mgrEntries.map APIEntry.name := by
      unfold sev_step
      cases hg : get_entry acc.st.entries n with
      | none => exact hnames
      | some e =>
        dsimp only
        by_cases hv : e.valid ≠ v
        · rw [if_pos hv]
          rw [frame_names_eq (update_first_frame [n] n (by simp) v acc.st.entries)]
          exact hnames
        · rw [if_neg hv]
          exact hnames
    have hrec := ih (sev_step v acc n) hstep
    rw [List.foldl_cons, hrec]
    cases hg : get_entry acc.st.entries n with
    | none =>
      have hmiss : (get_entry mgrEntries n).isNone = true := by
        rw [Option.isNone_iff_eq_none]
        exact (get_entry_none_iff_names mgrEntries acc.st.entries hnames n).mp hg
      unfold sev_step
      rw [hg]
      dsimp only
      simp [List.filter_cons, hmiss]
    | some e =>
      have hhit : ¬ ((get_entry mgrEntries n).isNone = true) := by
        rw [Option.isNone_iff_eq_none]
        intro hcon
        rw [(get_entry_none_iff_names mgrEntries acc.st.entries hnames n).mpr hcon]
          at hg
        cases hg
      have hfalse : (get_entry mgrEntries n).isNone = false := by
        rw [Bool.eq_false_iff]
        exact hhit
      unfold sev_step
      rw [hg]
      dsimp only
      by_cases hv : e.valid ≠ v
      · rw [if_pos hv]
        simp [List.filter_cons, hfalse]
      · rw [if_neg hv]
        simp [List.filter_cons, hfalse]

/-- When every named entry already carries the target flag, the loop changes
nothing. -/
lemma sev_fold_nochange (v : Bool) (mgr : MgrState) :
    ∀ (sub : List String) (acc : SEVAcc), acc.st = mgr → acc.changed = false →
      (∀ n ∈ sub, ∀ e, get_entry mgr.entries n = some e → e.valid = v) →
      (sub.foldl (sev_step v) acc).st = mgr ∧
      (sub.foldl (sev_step v) acc).changed = false := by
  intro sub
  induction sub with
  | nil => exact fun acc hst hch _ => ⟨hst, hch⟩
  | cons n rest ih =>
    intro acc hst hch hall
    have hstep : (sev_step v acc n).st = mgr ∧ (sev_step v acc n).changed = false := by
      unfold sev_step
      cases hg : get_entry acc.st.entries n with
      | none => exact ⟨hst, hch⟩
      | some e =>
        have hev : e.valid = v := hall n (by simp) e (by rw [← hst]; exact hg)
        dsimp only
        rw [if_neg (by simp [hev])]
        exact ⟨hst, hch⟩
    exact ih (sev_step v acc n) hstep.1 hstep.2
      (fun m hm => hall m (by simp [hm]))

/-- C10: `set_entries_valid` returns as `failed` exactly the requested names
with no registered entry; when every named entry already has `valid = v` it
performs no database write, fires no change notification and leaves the
state unchanged; and in every case all fields of entries not named in the
call, and all fields other than `valid` of the named entries, are unchanged,
both in the entry list and in the raw pool. -/
theorem C10_set_entries_valid_frame (mgr : MgrState) (names : List String) (v : Bool) :
    (set_entries_valid mgr names v).failed =
      names.filter (fun n => (get_entry mgr.entries n).isNone) ∧
    ((∀ n ∈ names, ∀ e, get_entry mgr.entries n = some e → e.valid = v) →
      (set_entries_valid mgr names v).upserts = [] ∧
      (set_entries_valid mgr names v).emitted = false ∧
      (set_entries_valid mgr names v).st = mgr) ∧
    List.Forall₂ (frameS names) mgr.entries (set_entries_valid mgr names v).st.entries ∧
    List.Forall₂ (frameS names) mgr.pool (set_entries_valid mgr names v).st.pool := by
  have hfailed := sev_fold_failed v mgr.entries names ⟨mgr, [], [], [], false⟩ rfl
  have hframe := sev_fold_frame v names names ⟨mgr, [], [], [], false⟩
    (fun _ h => h)
  refine ⟨?_, ?_, ?_, ?_⟩
  · unfold set_entries_valid
    dsimp only
    by_cases hc : (names.foldl (sev_step v) ⟨mgr, [], [], [], false⟩).changed = true
    · rw [if_pos hc]
      simpa using hfailed
    · rw [if_neg hc]
      simpa using hfailed
  · intro hall
    have hnc := sev_fold_nochange v mgr names ⟨mgr, [], [], [], false⟩ rfl rfl hall
    unfold set_entries_valid
    dsimp only
    rw [if_neg (by simp [hnc.2])]
    exact ⟨rfl, rfl, hnc.1⟩
  · unfold set_entries_valid
    dsimp only
    by_cases hc : (names.foldl (sev_step v) ⟨mgr, [], [], [], false⟩).changed = true
    · rw [if_pos hc]
      exact hframe.1
    · rw [if_neg hc]
      exact hframe.1
  · unfold set_entries_valid
    dsimp only
    by_cases hc : (names.foldl (sev_step v) ⟨mgr, [], [], [], false⟩).changed = true
    · rw [if_pos hc]
      exact hframe.2
    · rw [if_neg hc]
      exact hframe.2

/-- C10 witness: on a registry holding the single valid entry `a`, asking to
mark `a` and `b` valid fails exactly for `b`, writes nothing, emits nothing
and leaves the state unchanged. -/
theorem C10_witness :
    (set_entries_valid
        ⟨[⟨"a", "u", "t", [], "p", true, [], [], "", true, "s"⟩],
         [⟨"a", "u", "t", [], "p", true, [], [], "", true, "s"⟩]⟩
        ["a", "b"] true).failed = ["b"] ∧
    (set_entries_valid
        ⟨[⟨"a", "u", "t", [], "p", true, [], [], "", true, "s"⟩],
         [⟨"a", "u", "t", [], "p", true, [], [], "", true, "s"⟩]⟩
        ["a", "b"] true).upserts = [] ∧
    (set_entries_valid
        ⟨[⟨"a", "u", "t", [], "p", true, [], [], "", true, "s"⟩],
         [⟨"a", "u", "t", [], "p", true, [], [], "", true, "s"⟩]⟩
        ["a", "b"] true).emitted = false := by
  have h := C10_set_entries_valid_frame
    ⟨[⟨"a", "u", "t", [], "p", true, [], [], "", true, "s"⟩],
     [⟨"a", "u", "t", [], "p", true, [], [], "", true, "s"⟩]⟩
    ["a", "b"] true
  have hall : ∀ n ∈ ["a", "b"], ∀ e,
      get_entry [(⟨"a", "u", "t", [], "p", true, [], [], "", true, "s"⟩ : APIEntry)] n =
        some e → e.valid = true := by
    intro n hn e he
    cases hn with
    | head =>
      have he2 : some (⟨"a", "u", "t", [], "p", true, [], [], "", true, "s"⟩ : APIEntry) =
          some e := he
      cases Option.some.inj he2
      rfl
    | tail _ hb =>
      cases hb with
      | head =>
        have hnone : (none : Option APIEntry) = some e := he
        exact absurd hnone (by simp)
      | tail _ hx => cases hx
  exact ⟨h.1.trans (by decide), (h.2.1 hall).1, (h.2.1 hall).2.1⟩


/-! ## C6: the batch-test event stream -/

/-- The event loop appends exactly one progress event per consumed test,
carrying that test's entry name. -/
lemma progress_fold_events (total : Nat) :
    ∀ (order : List (APIEntry × TestOutcome)) (acc : ProgressAcc),
      ∃ P, (order.foldl (progress_step total) acc).events = acc.events ++ P ∧
        P.length = order.length ∧ (∀ ev ∈ P, ev.isProgress = true) ∧
        P.map StreamEvent.progressName = order.map (fun p => p.1.name) := by
  intro order
  induction order with
  | nil => exact fun acc => ⟨[], by simp, rfl, by simp, rfl⟩
  | cons item rest ih =>
    intro acc
    obtain ⟨P, hP, hlen, hprog, hnames⟩ := ih (progress_step total acc item)
    have hstep : ∃ ev, (progress_step total acc item).events = acc.events ++ [ev] ∧
        ev.isProgress = true ∧ ev.progressName = item.1.name := by
      cases hitem : item.2 with
      | exc m =>
        refine ⟨.progress item.1.name item.1.url (acc.completed + 1) total
          false none "" "" m "", ?_, rfl, rfl⟩
        simp [progress_step, hitem]
      | res r =>
        refine ⟨.progress item.1.name item.1.url (acc.completed + 1) total
          (is_valid r) r.status (r.content_type.getD "") (r.final_url.getD "")
          (build_test_reason r) (build_result_preview r), ?_, rfl, rfl⟩
        simp [progress_step, hitem]
    obtain ⟨ev, hev, hevp, hevn⟩ := hstep
    refine ⟨ev :: P, ?_, by simp [hlen], ?_, ?_⟩
    · rw [List.foldl_cons, hP, hev]
      simp
    · intro e he
      rcases List.mem_cons.mp he with rfl | hmem
      · exact hevp
      · exact hprog e hmem
    · simp [hnames, hevn]

/-- The event loop counts one completion per consumed test. -/
lemma progress_fold_completed (total : Nat) :
    ∀ (order : List (APIEntry × TestOutcome)) (acc : ProgressAcc),
      (order.foldl (progress_step total) acc).completed =
        acc.completed + order.length := by
  intro order
  induction order with
  | nil => intro acc; simp
  | cons item rest ih =>
    intro acc
    rw [List.foldl_cons, ih]
    have hstep : (progress_step total acc item).completed = acc.completed + 1 := by
      cases hitem : item.2 with
      | exc m => simp [progress_step, hitem]
      | res r => simp [progress_step, hitem]
    rw [hstep]
    simp
    omega

/-- The success set stays duplicate-free. -/
lemma progress_fold_succ_nodup (total : Nat) :
    ∀ (order : List (APIEntry × TestOutcome)) (acc : ProgressAcc),
      acc.succeeded.Nodup →
      (order.foldl (progress_step total) acc).succeeded.Nodup := by
  intro order
  induction order with
  | nil => exact fun acc h => h
  | cons item rest ih =>
    intro acc hacc
    rw [List.foldl_cons]
    apply ih
    cases hitem : item.2 with
    | exc m => simpa [progress_step, hitem] using hacc
    | res r =>
      simp only [progress_step, hitem]
      by_cases hv : is_valid r
      · by_cases hmem : item.1.name ∈ acc.succeeded
        · simpa [hv, hmem] using hacc
        · simp [hv, hmem, List.nodup_append, hacc]
      · simpa [hv] using hacc

/-- Every name in the success set comes from the initial set or from one of
the consumed tests. -/
lemma progress_fold_succ_sub (total : Nat) :
    ∀ (order : List (APIEntry × TestOutcome)) (acc : ProgressAcc),
      ∀ s ∈ (order.foldl (progress_step total) acc).succeeded,
        s ∈ acc.succeeded ∨ s ∈ order.map (fun p => p.1.name) := by
  intro order
  induction order with
  | nil => exact fun acc s hs => Or.inl hs
  | cons item rest ih =>
    intro acc s hs
    rw [List.foldl_cons] at hs
    rcases ih (progress_step total acc item) s hs with hin | hin
    · cases hitem : item.2 with
      | exc m =>
        rw [progress_step, hitem] at hin
        exact Or.inl hin
      | res r =>
        rw [progress_step, hitem] at hin
        dsimp only at hin
        by_cases hv : is_valid r
        · rw [if_pos hv] at hin
          by_cases hmem : item.1.name ∈ acc.succeeded
          · rw [if_pos hmem] at hin
            exact Or.inl hin
          · rw [if_neg hmem] at hin
            rcases List.mem_append.mp hin with h | h
            · exact Or.inl h
            · right
              simp only [List.mem_singleton] at h
              simp [h]
        · rw [if_neg hv] at hin
          exact Or.inl hin
    · right
      simp only [List.map_cons, List.mem_cons]
      exact Or.inr hin

/-- Filtering entries by a predicate on their name then projecting names is
filtering the projected names. -/
lemma map_name_filter (l : List APIEntry) (q : String → Bool) :
    ((l.filter (fun e => q e.name)).map (fun e => e.name)) =
      (l.map (fun e => e.name)).filter q := by
  induction l with
  | nil => rfl
  | cons e es ih =>
    cases hq : q e.name
    · simp [List.filter_cons, hq, ih]
    · simp [List.filter_cons, hq, ih]

/-- C6: over a non-empty batch of entries with distinct names, the streamed
event sequence is exactly one start event (total `n`, completed `0`), then
exactly `n` progress events — one per tested entry, in completion order —
then one terminal done event with completed `n`, whose `valid` and `invalid`
name lists are disjoint and together are a permutation of the `n` entry
names. -/
theorem C6_stream_event_shape (tests order : List (APIEntry × TestOutcome))
    (mgr : MgrState) (hne : tests ≠ [])
    (hnodup : (tests.map (fun p => p.1.name)).Nodup)
    (hperm : order.Perm tests) :
    ∃ P valid invalid,
      (stream_test_apis tests order mgr).1 =
        .start tests.length 0 :: P ++
          [.done tests.length tests.length valid invalid
            valid.length invalid.length] ∧
      P.length = tests.length ∧
      (∀ ev ∈ P, ev.isProgress = true) ∧
      P.map StreamEvent.progressName = order.map (fun p => p.1.name) ∧
      (∀ x ∈ valid, x ∉ invalid) ∧
      (valid ++ invalid).Perm (tests.map (fun p => p.1.name)) := by
  obtain ⟨P, hP, hlen, hprog, hnames⟩ :=
    progress_fold_events tests.length order ⟨[], [], 0⟩
  have hPe : (order.foldl (progress_step tests.length) ⟨[], [], 0⟩).events = P := by
    simpa using hP
  have hcompleted :
      (order.foldl (progress_step tests.length) ⟨[], [], 0⟩).completed =
        tests.length := by
    rw [progress_fold_completed]
    simp [hperm.length_eq]
  set S := (order.foldl (progress_step tests.length) ⟨[], [], 0⟩).succeeded with hS
  have hSnd : S.Nodup := progress_fold_succ_nodup tests.length order ⟨[], [], 0⟩ (by simp)
  have hSsub : ∀ s ∈ S, s ∈ tests.map (fun p => p.1.name) := by
    intro s hs
    rcases progress_fold_succ_sub tests.length order ⟨[], [], 0⟩ s hs with h | h
    · simp at h
    · exact (hperm.map (fun p => p.1.name)).mem_iff.mp h
  have htotne : ¬ (tests.length = 0) := by
    simpa [List.length_eq_zero] using hne
  refine ⟨P, S,
    ((tests.map (fun p => p.1)).filter (fun e => e.name ∉ S)).map
      (fun e => e.name), ?_, ?_, hprog, hnames, ?_, ?_⟩
  · unfold stream_test_apis
    rw [if_neg htotne]
    dsimp only
    rw [hPe, hcompleted]
  · rw [hlen, hperm.length_eq]
  · intro x hx hxF
    rw [map_name_filter (tests.map (fun p => p.1)) (fun nm => nm ∉ S)] at hxF
    rw [List.mem_filter] at hxF
    exact absurd hx (by simpa using hxF.2)
  · rw [map_name_filter (tests.map (fun p => p.1)) (fun nm => nm ∉ S)]
    have hmm : (tests.map (fun p => p.1)).map (fun e => e.name) =
        tests.map (fun p => p.1.name) := by
      rw [List.map_map]
      rfl
    rw [hmm]
    apply List.perm_of_nodup_nodup_toFinset_eq
    · rw [List.nodup_append]
      refine ⟨hSnd, hnodup.filter _, ?_⟩
      intro x hxS hxF
      rw [List.mem_filter] at hxF
      exact absurd hxS (by simpa using hxF.2)
    · exact hnodup
    · ext a
      simp only [List.toFinset_append, Finset.mem_union, List.mem_toFinset,
        List.mem_filter]
      constructor
      · rintro (h | ⟨h, _⟩)
        · exact hSsub a h
        · exact h
      · intro h
        by_cases hmem : a ∈ S
        · exact Or.inl hmem
        · exact Or.inr ⟨h, by simpa using hmem⟩

/-- C6 witness: a one-entry batch whose test raises streams start, one
progress event, and a done event partitioning the single name. -/
theorem C6_witness :
    ∃ P valid invalid,
      (stream_test_apis
          [(⟨"a", "u", "t", [], "p", true, [], [], "", true, "s"⟩, .exc "boom")]
          [(⟨"a", "u", "t", [], "p", true, [], [], "", true, "s"⟩, .exc "boom")]
          ⟨[], []⟩).1 =
        .start 1 0 :: P ++ [.done 1 1 valid invalid valid.length invalid.length] ∧
      P.length = 1 ∧
      (∀ ev ∈ P, ev.isProgress = true) ∧
      P.map StreamEvent.progressName = ["a"] ∧
      (∀ x ∈ valid, x ∉ invalid) ∧
      (valid ++ invalid).Perm ["a"] :=
  C6_stream_event_shape
    [(⟨"a", "u", "t", [], "p", true, [], [], "", true, "s"⟩, .exc "boom")]
    [(⟨"a", "u", "t", [], "p", true, [], [], "", true, "s"⟩, .exc "boom")]
    ⟨[], []⟩ (by simp) (by simp) (List.Perm.refl _)

end ApiAggregator
